import Mathlib

/-!
Verification development for the amqp-ts facade (src/amqp-ts.ts).

The TypeScript source is shallowly embedded: promise-driven control flow
becomes explicit state passing over small state machines, registries become
finite maps `String → Option α`, byte buffers become `List Nat`, and the
channel operations performed by the facade are recorded as explicit event
traces.  Fallible paths return `Option`/`Except`.
-/

set_option maxHeartbeats 1000000

/-- Settlement state of a single-assignment future (bluebird promise).
A rejected future carries the error it was rejected with (errors are
modelled as natural-number tokens). -/
inductive PState where
  | pending : PState
  | resolved : PState
  | rejected : Nat → PState
deriving DecidableEq, Repr

/-- Finite map keyed by entity name, the shape of the Connection registries
(`_exchanges`, `_queues`, `_bindings`). -/
def StrMap (α : Type) : Type := String → Option α

/-- `reg[name] = v` (JS property assignment on the registry object). -/
def StrMap.insertS {α : Type} (m : StrMap α) (k : String) (v : α) : StrMap α :=
  fun k' => if k' = k then some v else m k'

/-- `delete reg[name]` (JS property deletion on the registry object). -/
def StrMap.eraseS {α : Type} (m : StrMap α) (k : String) : StrMap α :=
  fun k' => if k' = k then none else m k'

/-- The empty registry. -/
def StrMap.emptyS {α : Type} : StrMap α := fun _ => none

/-! ## Connection rebuild machine (Connection.rebuildConnection / tryToConnect)

State of the `Connection` supervisor restricted to what the rebuild guard
touches: the `_rebuilding` flag, the identity of the current `initialized`
promise, a store of promise settlement states, and a count of underlying
connect attempts currently in flight (each `tryToConnect` chain started by
`rebuildConnection` is one attempt until its callback runs). -/

structure ConnMS where
  rebuilding : Bool
  initializedId : Nat
  promises : List PState
  attemptsInFlight : Nat
deriving DecidableEq, Repr

/-- Fresh connection state: guard down, one settled dummy promise slot so
`initializedId` is well defined, no connect attempt running. -/
def ConnMS.init : ConnMS :=
  { rebuilding := false, initializedId := 0, promises := [PState.resolved],
    attemptsInFlight := 0 }

/-- `Connection.rebuildConnection` (lines 63-96): if `_rebuilding` is set,
return the current `initialized` promise unchanged; otherwise raise the
guard, allocate a fresh pending `initialized` promise and start one
underlying connect attempt (`tryToConnect`).  Returns the promise id handed
back to the caller together with the new state. -/
def rebuildConnection (s : ConnMS) : Nat × ConnMS :=
  if s.rebuilding then
    (s.initializedId, s)
  else
    (s.promises.length,
      { rebuilding := true,
        initializedId := s.promises.length,
        promises := s.promises ++ [PState.pending],
        attemptsInFlight := s.attemptsInFlight + 1 })

/-- Settle a promise slot: `some e` rejects with error `e`, `none` resolves. -/
def settleWith (res : Option Nat) : PState :=
  match res with
  | some e => PState.rejected e
  | none => PState.resolved

/-- The callback passed to `tryToConnect` (lines 72-87): when the underlying
connect attempt settles, the guard is lowered and the `initialized` promise
is resolved (success) or rejected (terminal failure) — in both branches
`_rebuilding = false` is assigned before settling. -/
def connectSettle (res : Option Nat) (s : ConnMS) : ConnMS :=
  { s with
    rebuilding := false,
    attemptsInFlight := s.attemptsInFlight - 1,
    promises := s.promises.set s.initializedId (settleWith res) }

/-- Connection-level effect of `Connection._rebuildAll` (lines 132-172): it
calls `rebuildConnection` (joining any in-flight rebuild), re-initializes
the registered entities (which does not touch the connection fields
modelled here) and allocates a fresh promise wrapping
`completeConfiguration`, which it returns.  Returns the id of that
wrapper promise. -/
def rebuildAll (s : ConnMS) : Nat × ConnMS :=
  let s1 := (rebuildConnection s).2
  (s1.promises.length, { s1 with promises := s1.promises ++ [PState.pending] })

/-- Settling the promise returned by `_rebuildAll` (lines 162-171): when
`completeConfiguration` settles, only that wrapper promise is resolved or
rejected; in particular the executor never assigns `_rebuilding`. -/
def rebuildAllSettle (pid : Nat) (res : Option Nat) (s : ConnMS) : ConnMS :=
  { s with promises := s.promises.set pid (settleWith res) }

/-- Events that can act on the rebuild machine. -/
inductive ConnEv where
  | callRebuildConnection : ConnEv
  | callRebuildAll : ConnEv
  | connectSettled : Option Nat → ConnEv
  | rebuildAllSettled : Nat → Option Nat → ConnEv
deriving DecidableEq, Repr

/-- One step of the rebuild machine. -/
def connStep (e : ConnEv) (s : ConnMS) : ConnMS :=
  match e with
  | ConnEv.callRebuildConnection => (rebuildConnection s).2
  | ConnEv.callRebuildAll => (rebuildAll s).2
  | ConnEv.connectSettled res => connectSettle res s
  | ConnEv.rebuildAllSettled pid res => rebuildAllSettle pid res s

/-- Event validity: a `connectSettled` event is the callback of the
in-flight connect attempt, so it can only fire while the guard is up (the
guard is raised exactly when an attempt is started and lowered exactly by
this callback).  All other events can always fire. -/
def connEvValid (e : ConnEv) (s : ConnMS) : Bool :=
  match e with
  | ConnEv.connectSettled _ => s.rebuilding
  | _ => true

/-- Run a list of events left to right. -/
def connRun (evs : List ConnEv) (s : ConnMS) : ConnMS :=
  match evs with
  | [] => s
  | e :: rest => connRun rest (connStep e s)

/-- A trace is valid when every event is valid in the state it fires from. -/
def connTraceValid (evs : List ConnEv) (s : ConnMS) : Bool :=
  match evs with
  | [] => true
  | e :: rest => connEvValid e s && connTraceValid rest (connStep e s)

/-- Key invariant tying the guard to the attempt count: the number of
connect attempts in flight is 1 while the guard is up and 0 otherwise. -/
def connInv (s : ConnMS) : Prop :=
  s.attemptsInFlight = (if s.rebuilding then 1 else 0)

/-! ## Connect retry loop (Connection.tryToConnect, lines 98-130)

The run is specialised to the scenario of the claim: every underlying
`AmqpLib.connect` attempt fails.  The attempt at retry index `k` fails with
error token `k`, so the last transport error of a terminating run is the
index of the last attempt.  `fuel` bounds how far the unbounded
`setTimeout` chain is unrolled; a result of `none` means the loop was still
scheduling further attempts when the fuel ran out. -/

/-- Observable events of the retry loop. -/
inductive RetryEv where
  | attempt : Nat → RetryEv
  | scheduleRetry : Nat → RetryEv
  | callbackErr : Nat → RetryEv
deriving DecidableEq, Repr

/-- `tryToConnect` with every connect attempt failing: attempt, then — per
line 103 — if `retries === 0` or `retries > retry`, schedule the next
attempt after `interval` ms with `retry + 1`; otherwise invoke the callback
with the last error.  Returns the event trace and `some k` when the
callback was invoked with the error of attempt `k`. -/
def tryToConnectAllFail (retries interval : Nat) :
    Nat → Nat → List RetryEv × Option Nat
  | 0, _ => ([], none)
  | fuel + 1, retry =>
    if retries = 0 ∨ retries > retry then
      (RetryEv.attempt retry :: RetryEv.scheduleRetry interval ::
          (tryToConnectAllFail retries interval fuel (retry + 1)).1,
        (tryToConnectAllFail retries interval fuel (retry + 1)).2)
    else
      ([RetryEv.attempt retry, RetryEv.callbackErr retry], some retry)

/-- Number of connect attempts in a trace. -/
def countAttempts (evs : List RetryEv) : Nat :=
  evs.countP (fun e => match e with | RetryEv.attempt _ => true | _ => false)

/-- The scheduled retry delays of a trace, in order. -/
def scheduledDelays (evs : List RetryEv) : List Nat :=
  evs.filterMap
    (fun e => match e with | RetryEv.scheduleRetry d => some d | _ => none)

/-- Settlement of `Connection.initialized` under the all-attempts-fail run:
the callback wired by `rebuildConnection` (lines 72-77) rejects the future
with the error it receives; if the callback never fires the future stays
pending. -/
def initializedAllFail (retries interval fuel : Nat) : PState :=
  match (tryToConnectAllFail retries interval fuel 0).2 with
  | some k => PState.rejected k
  | none => PState.pending

/-! ## Entity registries (Connection.declareExchange / declareQueue)

`Connection._exchanges` and `_queues` are JS objects keyed by entity name,
modelled as `StrMap`.  An Exchange registers itself at the end of
`_initialize` (line 438) and a Queue in its constructor (line 648), both
synchronously during `new`, so `declareExchange`/`declareQueue` observe the
registration immediately.  Object identity is modelled by a fresh numeric
`objId` drawn from the connection-wide counter `nextId`. -/

/-- `Exchange.DeclarationOptions` (lines 613-619). -/
structure ExchangeDeclOptions where
  durable : Option Bool := none
  internal : Option Bool := none
  autoDelete : Option Bool := none
  alternateExchange : Option String := none
deriving DecidableEq, Repr

/-- `Queue.DeclarationOptions` (lines 949-958). -/
structure QueueDeclOptions where
  exclusive : Option Bool := none
  durable : Option Bool := none
  autoDelete : Option Bool := none
  messageTtl : Option Nat := none
  expires : Option Nat := none
  deadLetterExchange : Option String := none
  maxLength : Option Nat := none
deriving DecidableEq, Repr

/-- An `Exchange` instance as far as declaration is concerned. -/
structure ExchangeObj where
  objId : Nat
  name : String
  etype : Option String
  opts : Option ExchangeDeclOptions
deriving DecidableEq, Repr

/-- A `Queue` instance as far as declaration is concerned. -/
structure QueueObj where
  objId : Nat
  name : String
  opts : Option QueueDeclOptions
deriving DecidableEq, Repr

/-- The Connection's registries plus the identity counter. -/
structure ConnReg where
  exchanges : StrMap ExchangeObj
  queues : StrMap QueueObj
  nextId : Nat

/-- `Connection.declareExchange` (lines 237-243): return the registered
instance when one exists (the `type` and `options` arguments are not read
on that path); otherwise construct a new Exchange, which registers itself
under its name. -/
def declareExchange (st : ConnReg) (name : String) (etype : Option String)
    (opts : Option ExchangeDeclOptions) : ExchangeObj × ConnReg :=
  match st.exchanges name with
  | some e => (e, st)
  | none =>
    (⟨st.nextId, name, etype, opts⟩,
      { st with
        exchanges := st.exchanges.insertS name ⟨st.nextId, name, etype, opts⟩,
        nextId := st.nextId + 1 })

/-- `Connection.declareQueue` (lines 245-251), same shape. -/
def declareQueue (st : ConnReg) (name : String)
    (opts : Option QueueDeclOptions) : QueueObj × ConnReg :=
  match st.queues name with
  | some q => (q, st)
  | none =>
    (⟨st.nextId, name, opts⟩,
      { st with
        queues := st.queues.insertS name ⟨st.nextId, name, opts⟩,
        nextId := st.nextId + 1 })

/-- Registry effect of `Exchange.delete` / `Exchange.close` (lines 503 and
525): the entry is deleted from `Connection._exchanges`. -/
def removeExchange (st : ConnReg) (name : String) : ConnReg :=
  { st with exchanges := st.exchanges.eraseS name }

/-- Registry effect of `Queue.delete` / `Queue.close` (lines 900 and 923). -/
def removeQueue (st : ConnReg) (name : String) : ConnReg :=
  { st with queues := st.queues.eraseS name }

/-- Registered instances carry identities below the counter. -/
def regWF (st : ConnReg) : Prop :=
  (∀ n e, st.exchanges n = some e → e.objId < st.nextId) ∧
  (∀ n q, st.queues n = some q → q.objId < st.nextId)

/-- A one-exchange connection state used by the C7 witness. -/
def regOneE : ConnReg :=
  ⟨StrMap.emptyS.insertS "e" ⟨0, "e", some "topic", none⟩, StrMap.emptyS, 1⟩

/-! ## Entity initialization (Exchange._initialize lines 415-439,
Queue._initialize lines 652-675)

One `_initialize` run, after `Connection.initialized` has resolved, is
determined by the outcome of `connection.createChannel` (`chanResult`,
`some e` = error callback with `e`) and of `assertExchange`/`assertQueue`
(`declResult`).  The run yields the registry of the connection afterwards
and the settlement of the entity's new `initialized` future.  Registered
instances are represented by their identity token. -/

/-- `Exchange._initialize`: line 438 re-registers the instance
synchronously; a `createChannel` error only rejects (line 421); an
`assertExchange` error deletes the registry entry and rejects
(lines 428-429); otherwise the future resolves (line 431). -/
def initializeExchange (reg : StrMap Nat) (name : String) (selfId : Nat)
    (chanResult : Option Nat) (declResult : Option Nat) :
    StrMap Nat × PState :=
  let reg1 := reg.insertS name selfId
  match chanResult with
  | some e => (reg1, PState.rejected e)
  | none =>
    match declResult with
    | some e => (reg1.eraseS name, PState.rejected e)
    | none => (reg1, PState.resolved)

/-- `Queue._initialize` body (lines 652-675): the failure handling mirrors
the Exchange one — `createChannel` error rejects only (line 658),
`assertQueue` error deletes the registry entry and rejects (lines
664-666). -/
def initializeQueueBody (reg : StrMap Nat) (name : String)
    (chanResult : Option Nat) (declResult : Option Nat) :
    StrMap Nat × PState :=
  match chanResult with
  | some e => (reg, PState.rejected e)
  | none =>
    match declResult with
    | some e => (reg.eraseS name, PState.rejected e)
    | none => (reg, PState.resolved)

/-- `new Queue(...)` (lines 644-650): the constructor registers the
instance (line 648) and then runs `_initialize`. -/
def newQueue (reg : StrMap Nat) (name : String) (selfId : Nat)
    (chanResult : Option Nat) (declResult : Option Nat) :
    StrMap Nat × PState :=
  initializeQueueBody (reg.insertS name selfId) name chanResult declResult

/-! ## Channel operations and gating (Message.ack/nack/reject,
Queue.publish/rpc, Exchange.publish/rpc, Message.sendTo) -/

/-- Operations the facade issues on an amqplib channel.  Content is the
byte payload; `Option Bool` arguments are the optional `allUpTo`/`requeue`
flags. -/
inductive ChanOp where
  | ack : Nat → Option Bool → ChanOp
  | nack : Nat → Option Bool → ChanOp
  | reject : Nat → Option Bool → ChanOp
  | publish : String → String → List Nat → ChanOp
  | sendToQueue : String → List Nat → ChanOp
  | consume : String → ChanOp
deriving DecidableEq, Repr

/-- A `Message` as far as acknowledging is concerned: `_channel` is only
set on received messages (line 308), `deliveryTag` stands for the
underlying `_message` handle. -/
structure MsgHandle where
  channel : Option Nat
  deliveryTag : Nat
deriving DecidableEq, Repr

/-- Calling `channel.ack` on the message's `_channel`: on a message
without one, JS would throw a TypeError (method call on `undefined`). -/
def channelAckCall (m : MsgHandle) (allUpTo : Option Bool) :
    Except Unit (List ChanOp) :=
  match m.channel with
  | none => Except.error ()
  | some _ => Except.ok [ChanOp.ack m.deliveryTag allUpTo]

def channelNackCall (m : MsgHandle) (requeue : Option Bool) :
    Except Unit (List ChanOp) :=
  match m.channel with
  | none => Except.error ()
  | some _ => Except.ok [ChanOp.nack m.deliveryTag requeue]

def channelRejectCall (m : MsgHandle) (requeue : Option Bool) :
    Except Unit (List ChanOp) :=
  match m.channel with
  | none => Except.error ()
  | some _ => Except.ok [ChanOp.reject m.deliveryTag requeue]

/-- `Message.ack` (lines 375-379): guarded by
`this._channel !== undefined`. -/
def messageAck (m : MsgHandle) (allUpTo : Option Bool) :
    Except Unit (List ChanOp) :=
  if m.channel.isSome then channelAckCall m allUpTo else Except.ok []

/-- `Message.nack` (lines 381-385). -/
def messageNack (m : MsgHandle) (requeue : Option Bool) :
    Except Unit (List ChanOp) :=
  if m.channel.isSome then channelNackCall m requeue else Except.ok []

/-- `Message.reject` (lines 387-391). -/
def messageReject (m : MsgHandle) (requeue : Option Bool) :
    Except Unit (List ChanOp) :=
  if m.channel.isSome then channelRejectCall m requeue else Except.ok []

/-! ## UTF-8 (Node Buffer(string) / buffer.toString())

`new Buffer(string)` encodes the string as UTF-8; `buffer.toString()`
decodes it.  Bytes are `Nat` values below 256.  The decoder checks
continuation-byte ranges, overlong forms and surrogates, and is run with
one unit of fuel per decoded character. -/

def utf8EncodeChar (c : Char) : List Nat :=
  let v := c.toNat
  if v < 128 then [v]
  else if v < 2048 then [192 + v / 64, 128 + v % 64]
  else if v < 65536 then
    [224 + v / 4096, 128 + (v / 64) % 64, 128 + v % 64]
  else
    [240 + v / 262144, 128 + (v / 4096) % 64, 128 + (v / 64) % 64,
      128 + v % 64]

def utf8EncodeList (cs : List Char) : List Nat :=
  match cs with
  | [] => []
  | c :: rest => utf8EncodeChar c ++ utf8EncodeList rest

def utf8Encode (s : String) : List Nat := utf8EncodeList s.data

def isContByte (b : Nat) : Prop := 128 ≤ b ∧ b < 192

instance (b : Nat) : Decidable (isContByte b) := by
  unfold isContByte; infer_instance

def utf8DecodeAux : Nat → List Nat → Option (List Char)
  | _, [] => some []
  | 0, _ :: _ => none
  | fuel + 1, b :: rest =>
    if b < 128 then
      (utf8DecodeAux fuel rest).map (fun cs => Char.ofNat b :: cs)
    else if 194 ≤ b ∧ b < 224 then
      match rest with
      | b1 :: rest1 =>
        if isContByte b1 then
          (utf8DecodeAux fuel rest1).map
            (fun cs => Char.ofNat ((b - 192) * 64 + (b1 - 128)) :: cs)
        else none
      | [] => none
    else if 224 ≤ b ∧ b < 240 then
      match rest with
      | b1 :: b2 :: rest2 =>
        if isContByte b1 ∧ isContByte b2 ∧
            2048 ≤ (b - 224) * 4096 + (b1 - 128) * 64 + (b2 - 128) ∧
            ¬(55296 ≤ (b - 224) * 4096 + (b1 - 128) * 64 + (b2 - 128) ∧
              (b - 224) * 4096 + (b1 - 128) * 64 + (b2 - 128) < 57344) then
          (utf8DecodeAux fuel rest2).map
            (fun cs =>
              Char.ofNat ((b - 224) * 4096 + (b1 - 128) * 64 + (b2 - 128)) :: cs)
        else none
      | _ => none
    else if 240 ≤ b ∧ b < 245 then
      match rest with
      | b1 :: b2 :: b3 :: rest3 =>
        if isContByte b1 ∧ isContByte b2 ∧ isContByte b3 ∧
            65536 ≤ (b - 240) * 262144 + (b1 - 128) * 4096 +
              (b2 - 128) * 64 + (b3 - 128) ∧
            (b - 240) * 262144 + (b1 - 128) * 4096 + (b2 - 128) * 64 +
              (b3 - 128) < 1114112 then
          (utf8DecodeAux fuel rest3).map
            (fun cs =>
              Char.ofNat ((b - 240) * 262144 + (b1 - 128) * 4096 +
                (b2 - 128) * 64 + (b3 - 128)) :: cs)
        else none
      | _ => none
    else none

def utf8Decode (bytes : List Nat) : Option String :=
  (utf8DecodeAux bytes.length bytes).map (fun cs => String.mk cs)

/-! ## JSON model: JSON.stringify / JSON.parse

The facade delegates payload serialization to the JS runtime's
`JSON.stringify`/`JSON.parse`.  JS values are modelled by `JValue`
(numbers restricted to integers, object keys in declaration order);
`jsonStringify` mirrors the canonical serializer (string escaping
included) and `jsonParse` a recursive-descent parser of that canonical
form.  First, decimal numerals. -/

def isDigitC (c : Char) : Bool := 48 ≤ c.toNat && c.toNat ≤ 57

def digitVal (c : Char) : Nat := c.toNat - 48

def natChars (n : Nat) : List Char :=
  if n < 10 then [Char.ofNat (48 + n)]
  else natChars (n / 10) ++ [Char.ofNat (48 + n % 10)]
termination_by n
decreasing_by exact Nat.div_lt_self (by omega) (by omega)

def intChars (m : Int) : List Char :=
  if m < 0 then '-' :: natChars m.natAbs else natChars m.toNat

def takeDigits : List Char → List Char × List Char
  | [] => ([], [])
  | c :: rest =>
    if isDigitC c then
      ((c :: (takeDigits rest).1), (takeDigits rest).2)
    else ([], c :: rest)

def digitsToNat (ds : List Char) : Nat :=
  ds.foldl (fun a c => a * 10 + digitVal c) 0

def notDigitStart : List Char → Bool
  | [] => true
  | c :: _ => !(isDigitC c)

/-! ### JSON string quoting and unquoting -/

def hexDigitChar (n : Nat) : Char :=
  Char.ofNat (if n < 10 then 48 + n else 87 + n)

def escapeChar (c : Char) : List Char :=
  if c = '"' then ['\\', '"']
  else if c = '\\' then ['\\', '\\']
  else if c = Char.ofNat 8 then ['\\', 'b']
  else if c = Char.ofNat 9 then ['\\', 't']
  else if c = Char.ofNat 10 then ['\\', 'n']
  else if c = Char.ofNat 12 then ['\\', 'f']
  else if c = Char.ofNat 13 then ['\\', 'r']
  else if c.toNat < 32 then
    ['\\', 'u', '0', '0', hexDigitChar (c.toNat / 16),
      hexDigitChar (c.toNat % 16)]
  else [c]

def escapeList : List Char → List Char
  | [] => []
  | c :: rest => escapeChar c ++ escapeList rest

def quoteChars (s : String) : List Char := '"' :: (escapeList s.data ++ ['"'])

def hexVal (c : Char) : Option Nat :=
  if 48 ≤ c.toNat ∧ c.toNat ≤ 57 then some (c.toNat - 48)
  else if 97 ≤ c.toNat ∧ c.toNat ≤ 102 then some (c.toNat - 87)
  else if 65 ≤ c.toNat ∧ c.toNat ≤ 70 then some (c.toNat - 55)
  else none

def unescapeSimple (e : Char) : Option Char :=
  if e = '"' then some '"'
  else if e = '\\' then some '\\'
  else if e = '/' then some '/'
  else if e = 'b' then some (Char.ofNat 8)
  else if e = 'f' then some (Char.ofNat 12)
  else if e = 'n' then some (Char.ofNat 10)
  else if e = 'r' then some (Char.ofNat 13)
  else if e = 't' then some (Char.ofNat 9)
  else none

def parseStringBody : Nat → List Char → Option (List Char × List Char)
  | _, [] => none
  | 0, _ :: _ => none
  | fuel + 1, c :: rest =>
    if c = '"' then some ([], rest)
    else if c = '\\' then
      match rest with
      | [] => none
      | e :: rest1 =>
        if e = 'u' then
          match rest1 with
          | h1 :: h2 :: h3 :: h4 :: rest2 =>
            match hexVal h1, hexVal h2, hexVal h3, hexVal h4 with
            | some v1, some v2, some v3, some v4 =>
              if ((v1 * 16 + v2) * 16 + v3) * 16 + v4 < 55296 ∨
                  57343 < ((v1 * 16 + v2) * 16 + v3) * 16 + v4 then
                (parseStringBody fuel rest2).map
                  (fun p =>
                    (Char.ofNat (((v1 * 16 + v2) * 16 + v3) * 16 + v4) :: p.1,
                      p.2))
              else none
            | _, _, _, _ => none
          | _ => none
        else
          match unescapeSimple e with
          | some d =>
            (parseStringBody fuel rest1).map (fun p => (d :: p.1, p.2))
          | none => none
    else
      (parseStringBody fuel rest).map (fun p => (c :: p.1, p.2))

/-! ### JSON values -/

mutual
inductive JValue where
  | null : JValue
  | bool : Bool → JValue
  | num : Int → JValue
  | str : String → JValue
  | arr : JArr → JValue
  | obj : JObj → JValue
inductive JArr where
  | nil : JArr
  | cons : JValue → JArr → JArr
inductive JObj where
  | nil : JObj
  | cons : String → JValue → JObj → JObj
end

def lbraceC : Char := Char.ofNat 123

def rbraceC : Char := Char.ofNat 125

mutual
def jsonStringifyV : JValue → List Char
  | JValue.null => ['n', 'u', 'l', 'l']
  | JValue.bool true => ['t', 'r', 'u', 'e']
  | JValue.bool false => ['f', 'a', 'l', 's', 'e']
  | JValue.num m => intChars m
  | JValue.str s => quoteChars s
  | JValue.arr a => '[' :: (jsonStringifyA a ++ [']'])
  | JValue.obj o => lbraceC :: (jsonStringifyO o ++ [rbraceC])
def jsonStringifyA : JArr → List Char
  | JArr.nil => []
  | JArr.cons v JArr.nil => jsonStringifyV v
  | JArr.cons v (JArr.cons w a) =>
    jsonStringifyV v ++ ',' :: jsonStringifyA (JArr.cons w a)
def jsonStringifyO : JObj → List Char
  | JObj.nil => []
  | JObj.cons k v JObj.nil => quoteChars k ++ ':' :: jsonStringifyV v
  | JObj.cons k v (JObj.cons k2 v2 o) =>
    quoteChars k ++ ':' :: jsonStringifyV v ++
      ',' :: jsonStringifyO (JObj.cons k2 v2 o)
end

mutual
def parseJ : Nat → List Char → Option (JValue × List Char)
  | 0, _ => none
  | fuel + 1, cs =>
    match cs with
    | [] => none
    | c :: rest =>
      if c = 'n' then
        match rest with
        | 'u' :: 'l' :: 'l' :: rest1 => some (JValue.null, rest1)
        | _ => none
      else if c = 't' then
        match rest with
        | 'r' :: 'u' :: 'e' :: rest1 => some (JValue.bool true, rest1)
        | _ => none
      else if c = 'f' then
        match rest with
        | 'a' :: 'l' :: 's' :: 'e' :: rest1 => some (JValue.bool false, rest1)
        | _ => none
      else if c = '"' then
        (parseStringBody fuel rest).map
          (fun p => (JValue.str (String.mk p.1), p.2))
      else if c = '-' then
        match takeDigits rest with
        | ([], _) => none
        | (d :: ds, rest1) =>
          some (JValue.num (-(digitsToNat (d :: ds) : Int)), rest1)
      else if c = '[' then
        match rest with
        | [] => none
        | d :: rest1 =>
          if d = ']' then some (JValue.arr JArr.nil, rest1)
          else
            (parseArrElems fuel (d :: rest1)).map
              (fun p => (JValue.arr p.1, p.2))
      else if c = lbraceC then
        match rest with
        | [] => none
        | d :: rest1 =>
          if d = rbraceC then some (JValue.obj JObj.nil, rest1)
          else
            (parseObjMembers fuel (d :: rest1)).map
              (fun p => (JValue.obj p.1, p.2))
      else if isDigitC c then
        match takeDigits (c :: rest) with
        | ([], _) => none
        | (d :: ds, rest1) =>
          some (JValue.num ((digitsToNat (d :: ds) : Nat) : Int), rest1)
      else none
def parseArrElems : Nat → List Char → Option (JArr × List Char)
  | 0, _ => none
  | fuel + 1, cs =>
    match parseJ fuel cs with
    | none => none
    | some (v, rest) =>
      match rest with
      | [] => none
      | d :: rest1 =>
        if d = ']' then some (JArr.cons v JArr.nil, rest1)
        else if d = ',' then
          (parseArrElems fuel rest1).map (fun p => (JArr.cons v p.1, p.2))
        else none
def parseObjMembers : Nat → List Char → Option (JObj × List Char)
  | 0, _ => none
  | fuel + 1, cs =>
    match cs with
    | '"' :: cs1 =>
      match parseStringBody fuel cs1 with
      | none => none
      | some (k, rest) =>
        match rest with
        | ':' :: rest1 =>
          match parseJ fuel rest1 with
          | none => none
          | some (v, rest2) =>
            match rest2 with
            | [] => none
            | d :: rest3 =>
              if d = rbraceC then
                some (JObj.cons (String.mk k) v JObj.nil, rest3)
              else if d = ',' then
                (parseObjMembers fuel rest3).map
                  (fun p => (JObj.cons (String.mk k) v p.1, p.2))
              else none
        | _ => none
    | _ => none
end

mutual
def sizeV : JValue → Nat
  | JValue.null => 1
  | JValue.bool _ => 1
  | JValue.num _ => 1
  | JValue.str s => s.data.length + 2
  | JValue.arr a => sizeA a + 1
  | JValue.obj o => sizeO o + 1
def sizeA : JArr → Nat
  | JArr.nil => 0
  | JArr.cons v a => sizeV v + sizeA a + 1
def sizeO : JObj → Nat
  | JObj.nil => 0
  | JObj.cons k v o => k.data.length + 2 + sizeV v + sizeO o + 1
end

def jsonArrTail : JArr → List Char
  | JArr.nil => []
  | JArr.cons v a => ',' :: jsonStringifyA (JArr.cons v a)

def jsonObjTail : JObj → List Char
  | JObj.nil => []
  | JObj.cons k v o => ',' :: jsonStringifyO (JObj.cons k v o)

/-- The first character of a serialized JSON value. -/
def jsonStartOk (d : Char) : Prop :=
  d = 'n' ∨ d = 't' ∨ d = 'f' ∨ d = '"' ∨ d = '-' ∨ d = '[' ∨ d = lbraceC ∨
    isDigitC d = true

/-- `JSON.stringify` on the modelled values. -/
def jsonStringify (v : JValue) : String := String.mk (jsonStringifyV v)

/-- `JSON.parse`: parse the whole string as one JSON value. -/
def jsonParse (s : String) : Option JValue :=
  match parseJ s.data.length s.data with
  | some (v, []) => some v
  | _ => none

/-! ## Message content encoding and decoding

`Message.setContent`/`getContent` (lines 318-335),
`Queue._packMessageContent`/`_unpackMessageContent` (lines 677-693) and the
inline normalization in `Exchange.publish` (lines 445-450).  A JS payload
is a string, a Buffer, or any other (JSON-serializable) value. -/

inductive JSContent where
  | str : String → JSContent
  | buf : List Nat → JSContent
  | other : JValue → JSContent

/-- The message properties the encoding paths read or write. -/
structure MsgProps where
  contentType : Option String
  replyTo : Option String
deriving DecidableEq, Repr

/-- `Message.setContent` (lines 318-327): a string is UTF-8 encoded; a
non-Buffer is JSON-stringified and `properties.contentType` is assigned
`"application/json"` unconditionally; a Buffer is stored as is. -/
def setContent (props : MsgProps) (content : JSContent) :
    List Nat × MsgProps :=
  match content with
  | JSContent.str s => (utf8Encode s, props)
  | JSContent.buf b => (b, props)
  | JSContent.other v =>
    (utf8Encode (jsonStringify v),
      { props with contentType := some "application/json" })

/-- `Queue._packMessageContent` (lines 677-685): the same branching;
`options.contentType` is likewise assigned unconditionally. -/
def packMessageContent (content : JSContent) (options : MsgProps) :
    List Nat × MsgProps :=
  match content with
  | JSContent.str s => (utf8Encode s, options)
  | JSContent.buf b => (b, options)
  | JSContent.other v =>
    (utf8Encode (jsonStringify v),
      { options with contentType := some "application/json" })

/-- JS `a || b` on an optional string: `b` when `a` is absent or empty
(both are falsy). -/
def jsOrDefault (a : Option String) (b : String) : String :=
  match a with
  | some s => if s = "" then b else s
  | none => b

/-- The inline normalization of `Exchange.publish` (lines 445-450):
`options.contentType = options.contentType || "application/json"` — here
the caller's (truthy) contentType wins. -/
def exchangePublishNormalize (content : JSContent) (options : MsgProps) :
    List Nat × MsgProps :=
  match content with
  | JSContent.str s => (utf8Encode s, options)
  | JSContent.buf b => (b, options)
  | JSContent.other v =>
    (utf8Encode (jsonStringify v),
      { options with
        contentType :=
          some (jsOrDefault options.contentType "application/json") })

/-- Result of decoding a received payload. -/
inductive Decoded where
  | str : String → Decoded
  | json : JValue → Decoded

/-- `Message.getContent` (lines 329-335): UTF-8 decode, then JSON-parse
exactly when `properties.contentType === "application/json"`. -/
def getContent (content : List Nat) (props : MsgProps) : Option Decoded :=
  (utf8Decode content).bind fun s =>
    if props.contentType = some "application/json" then
      (jsonParse s).map Decoded.json
    else some (Decoded.str s)

/-- `Queue._unpackMessageContent` (lines 687-693): the same decoding. -/
def unpackMessageContent (content : List Nat) (props : MsgProps) :
    Option Decoded :=
  (utf8Decode content).bind fun s =>
    if props.contentType = some "application/json" then
      (jsonParse s).map Decoded.json
    else some (Decoded.str s)

/-- The `\x7ba: 1, b: [2, 3]\x7d` example value. -/
def sampleJson : JValue :=
  JValue.obj (JObj.cons "a" (JValue.num 1)
    (JObj.cons "b" (JValue.arr (JArr.cons (JValue.num 2)
      (JArr.cons (JValue.num 3) JArr.nil))) JObj.nil))

/-! ## Legacy consumer delivery (Queue._initializeConsumer, lines 795-817)

`processedMsgConsumer` handles one delivery to a `startConsumer` consumer
with `rawMessage` unset.  The user callback may return a value (used for a
`replyTo` response) or throw; the whole body, including the final `ack`,
sits inside one `try`. -/

/-- One delivery as the broker hands it over. -/
structure DeliveredMsg where
  content : List Nat
  contentType : Option String
  replyTo : Option String
  tag : Nat

/-- The `processedMsgConsumer` closure: unpack, invoke the callback, send
the optional reply, then `channel.ack(msg)` unless
`consumerOptions.noAck === true`; any exception of the payload decode or
the callback is caught and logged (second component `true`) and everything
after the throwing point — including the ack — is skipped. -/
def processedMsgConsumer (noAck : Option Bool)
    (consumer : Decoded → Except Nat JSContent) (msg : DeliveredMsg) :
    List ChanOp × Bool :=
  match unpackMessageContent msg.content ⟨msg.contentType, msg.replyTo⟩ with
  | none => ([], true)
  | some payload =>
    match consumer payload with
    | Except.error _ => ([], true)
    | Except.ok result =>
      ((match msg.replyTo with
        | some q =>
          [ChanOp.sendToQueue q (packMessageContent result ⟨none, none⟩).1]
        | none => []) ++
        (if noAck ≠ some true then [ChanOp.ack msg.tag none] else []),
        false)

/-- A concrete delivery used by the C8 theorems. -/
def msgHello : DeliveredMsg := ⟨utf8Encode "hello", none, none, 3⟩

/-! ## Publish-path failure recovery (Exchange.publish lines 444-464,
Queue.publish lines 698-722, Message.sendTo lines 337-373)

A run of the publish path is driven by the outcomes of the successive
`channel.publish`/`sendToQueue` calls: `some e` means the call threw `e`
synchronously, `none` that it returned.  A throw triggers
`connection._rebuildAll(err)`; when that future resolves, the entity is
re-looked-up by name in the registry and `publish` is re-invoked with the
same (already normalized) content and options. -/

/-- Observable events of one publish run. -/
inductive PubEvent where
  | attempt : String → String → List Nat → Option Nat → PubEvent
  | rebuildEv : Nat → PubEvent
  | lookupEv : String → PubEvent
deriving DecidableEq, Repr

/-- `Exchange.publish` under a sequence of channel outcomes: normalize,
gate on `initialized`, try `channel.publish(name, routingKey, content,
options)`; on a synchronous throw fire `_rebuildAll(err)`, re-look-up the
exchange by name and re-invoke `publish content routingKey options` (the
content now being the normalized Buffer). -/
def exchangePublishRun (reg : StrMap Nat) (name routingKey : String) :
    List (Option Nat) → JSContent → MsgProps → List PubEvent
  | [], _, _ => []
  | outcome :: rest, content, options =>
    match outcome with
    | none =>
      [PubEvent.attempt name routingKey
        (exchangePublishNormalize content options).1 none]
    | some e =>
      PubEvent.attempt name routingKey
          (exchangePublishNormalize content options).1 (some e) ::
        PubEvent.rebuildEv e ::
        PubEvent.lookupEv name ::
        (match reg name with
         | some _ =>
           exchangePublishRun reg name routingKey rest
             (JSContent.buf (exchangePublishNormalize content options).1)
             (exchangePublishNormalize content options).2
         | none => [])

/-- `Queue.publish` under a sequence of channel outcomes: pack, then
`sendToQueue(name, content, options)` — publishing to the default exchange
`""` with the queue name as routing key; the same
rebuild-lookup-retransmit reaction to a synchronous throw. -/
def queuePublishRun (reg : StrMap Nat) (name : String) :
    List (Option Nat) → JSContent → MsgProps → List PubEvent
  | [], _, _ => []
  | outcome :: rest, content, options =>
    match outcome with
    | none =>
      [PubEvent.attempt "" name (packMessageContent content options).1 none]
    | some e =>
      PubEvent.attempt "" name
          (packMessageContent content options).1 (some e) ::
        PubEvent.rebuildEv e ::
        PubEvent.lookupEv name ::
        (match reg name with
         | some _ =>
           queuePublishRun reg name rest
             (JSContent.buf (packMessageContent content options).1)
             (packMessageContent content options).2
         | none => [])

/-- The trace the claim predicts: `k` failure cycles — failed attempt,
one rebuild with the thrown error, one registry re-lookup — each
retransmitting the same exchange name, routing key and bytes, closed by
one successful attempt. -/
def expectedCycles (ex rk lk : String) (bytes : List Nat) (e : Nat) :
    Nat → List PubEvent
  | 0 => [PubEvent.attempt ex rk bytes none]
  | k + 1 =>
    PubEvent.attempt ex rk bytes (some e) :: PubEvent.rebuildEv e ::
      PubEvent.lookupEv lk :: expectedCycles ex rk lk bytes e k

/-- Rebuild events in a publish trace. -/
def countRebuilds (evs : List PubEvent) : Nat :=
  evs.countP (fun ev => match ev with
    | PubEvent.rebuildEv _ => true
    | _ => false)

/-- Attempts in a publish trace. -/
def countTraceAttempts (evs : List PubEvent) : Nat :=
  evs.countP (fun ev => match ev with
    | PubEvent.attempt _ _ _ _ => true
    | _ => false)

/-! ## Gating of channel operations on the entity's initialized future

Each operation is rendered as the pair of channel-operation lists
(immediate, deferred): `immediate` runs synchronously in the call,
`deferred` runs in a `.then` continuation, hence never before the
entity's `initialized` future has resolved.  `fulfilled` is
`initialized.isFulfilled()` at call time. -/

/-- The broker's direct reply-to pseudo-queue (line 30). -/
def directReplyTo : String := "amq.rabbitmq.reply-to"

/-- `Queue.publish` (lines 698-722): fast path — executed synchronously
when `initialized.isFulfilled()`, otherwise chained off the future. -/
def queuePublishOps (fulfilled : Bool) (name : String) (bytes : List Nat) :
    List ChanOp × List ChanOp :=
  if fulfilled then ([ChanOp.sendToQueue name bytes], [])
  else ([], [ChanOp.sendToQueue name bytes])

/-- `Queue.rpc` (lines 728-754): `processRpc` subscribes on the direct
reply-to queue; run synchronously when fulfilled, else chained. -/
def queueRpcOps (fulfilled : Bool) : List ChanOp × List ChanOp :=
  if fulfilled then ([ChanOp.consume directReplyTo], [])
  else ([], [ChanOp.consume directReplyTo])

/-- `Message.sendTo` (lines 337-373): same fast path around
`sendMessage`. -/
def messageSendToOps (fulfilled : Bool) (exchange rk : String)
    (bytes : List Nat) : List ChanOp × List ChanOp :=
  if fulfilled then ([ChanOp.publish exchange rk bytes], [])
  else ([], [ChanOp.publish exchange rk bytes])

/-- `Exchange.publish` (lines 451-463): always runs the channel publish
inside `initialized.then(...)`, with no synchronous fast path. -/
def exchangePublishOps (_fulfilled : Bool) (name rk : String)
    (bytes : List Nat) : List ChanOp × List ChanOp :=
  ([], [ChanOp.publish name rk bytes])

/-- `Exchange.rpc` (lines 470-489): the promise executor calls
`this._channel.consume(DIRECT_REPLY_TO_QUEUE, ...)` synchronously, without
consulting `initialized` at all (only the later `sendTo` of the request
message is gated). -/
def exchangeRpcOps (_fulfilled : Bool) : List ChanOp × List ChanOp :=
  ([ChanOp.consume directReplyTo], [])

/-! ## Properties

The theorems below state and settle the verified properties over the
definitions above; the per-claim theorems carry their claim id in the
doc comment. -/

theorem StrMap.insertS_self {α : Type} (m : StrMap α) (k : String) (v : α) :
    m.insertS k v k = some v := by
  simp [StrMap.insertS]

theorem StrMap.eraseS_self {α : Type} (m : StrMap α) (k : String) :
    m.eraseS k k = none := by
  simp [StrMap.eraseS]

theorem connInv_init : connInv ConnMS.init := by
  simp [connInv, ConnMS.init]

theorem connInv_step (e : ConnEv) (s : ConnMS) (hv : connEvValid e s = true)
    (h : connInv s) : connInv (connStep e s) := by
  cases e with
  | callRebuildConnection =>
    simp only [connStep, rebuildConnection, connInv] at *
    by_cases hr : s.rebuilding <;> simp [hr] at h ⊢ <;> simp [h]
  | callRebuildAll =>
    simp only [connStep, rebuildAll, rebuildConnection, connInv] at *
    by_cases hr : s.rebuilding <;> simp [hr] at h ⊢ <;> simp [h]
  | connectSettled res =>
    simp only [connEvValid] at hv
    simp [connStep, connectSettle, connInv, hv] at h ⊢
    omega
  | rebuildAllSettled pid res =>
    simpa [connStep, rebuildAllSettle, connInv] using h

theorem connInv_run (evs : List ConnEv) (s : ConnMS)
    (hv : connTraceValid evs s = true) (h : connInv s) :
    connInv (connRun evs s) := by
  induction evs generalizing s with
  | nil => exact h
  | cons e rest ih =>
    simp only [connTraceValid, Bool.and_eq_true] at hv
    exact ih (connStep e s) hv.2 (connInv_step e s hv.1 h)

/-- C1: while a rebuild is in progress (`_rebuilding` set) every call to
`rebuildConnection` returns the same in-flight `initialized` future and
changes nothing (in particular it starts no new connect attempt); a call
with the guard down raises the guard, allocates a fresh pending
`initialized` future and starts exactly one connect attempt; `_rebuildAll`
invoked during a rebuild keeps the same `initialized` future and attempt;
the guard is cleared exactly by the settle callback of the underlying
connect attempt (success or terminal failure), while the settlement of the
whole topology-rebuild future leaves the guard untouched; and along every
valid event trace from the initial state at most one rebuild (connect
attempt) is in flight at any moment. -/
theorem rebuildConnection_serializes :
    (∀ s : ConnMS, s.rebuilding = true →
      rebuildConnection s = (s.initializedId, s)) ∧
    (∀ s : ConnMS, s.rebuilding = false →
      (rebuildConnection s).2.rebuilding = true ∧
      (rebuildConnection s).2.initializedId = s.promises.length ∧
      (rebuildConnection s).2.promises =
        s.promises ++ [PState.pending] ∧
      (rebuildConnection s).2.attemptsInFlight = s.attemptsInFlight + 1) ∧
    (∀ s : ConnMS, s.rebuilding = true →
      (rebuildAll s).2.initializedId = s.initializedId ∧
      (rebuildAll s).2.attemptsInFlight = s.attemptsInFlight) ∧
    (∀ (res : Option Nat) (s : ConnMS),
      (connectSettle res s).rebuilding = false) ∧
    (∀ (pid : Nat) (res : Option Nat) (s : ConnMS),
      (rebuildAllSettle pid res s).rebuilding = s.rebuilding) ∧
    (∀ evs : List ConnEv, connTraceValid evs ConnMS.init = true →
      (connRun evs ConnMS.init).attemptsInFlight ≤ 1) := by
  refine ⟨?_, ?_, ?_, ?_, ?_, ?_⟩
  · intro s hr; simp [rebuildConnection, hr]
  · intro s hr; simp [rebuildConnection, hr]
  · intro s hr; simp [rebuildAll, rebuildConnection, hr]
  · intro res s; simp [connectSettle]
  · intro pid res s; simp [rebuildAllSettle]
  · intro evs hv
    have h := connInv_run evs ConnMS.init hv connInv_init
    simp only [connInv] at h
    rw [h]
    split <;> omega

/-- C1 witness: a second `rebuildConnection` during an in-flight rebuild is
the identity, and a concrete valid trace keeps at most one attempt in
flight. -/
theorem rebuildConnection_serializes_witness :
    rebuildConnection ((rebuildConnection ConnMS.init).2) =
      (((rebuildConnection ConnMS.init).2).initializedId,
        (rebuildConnection ConnMS.init).2) ∧
    (connRun [ConnEv.callRebuildConnection, ConnEv.callRebuildAll,
        ConnEv.connectSettled (some 7)] ConnMS.init).attemptsInFlight ≤ 1 :=
  ⟨rebuildConnection_serializes.1 _ (by decide),
   rebuildConnection_serializes.2.2.2.2.2 _ (by decide)⟩

theorem tryToConnectAllFail_pos (r i : Nat) (hr : 0 < r) :
    ∀ fuel retry, retry ≤ r → r - retry < fuel →
    countAttempts (tryToConnectAllFail r i fuel retry).1 = r - retry + 1 ∧
    scheduledDelays (tryToConnectAllFail r i fuel retry).1 =
      List.replicate (r - retry) i ∧
    (tryToConnectAllFail r i fuel retry).2 = some r := by
  intro fuel
  induction fuel with
  | zero => intro retry _ h; omega
  | succ f ih =>
    intro retry hle hlt
    by_cases hcase : retry < r
    · have hcond : r = 0 ∨ r > retry := Or.inr hcase
      have ihr := ih (retry + 1) (by omega) (by omega)
      simp only [tryToConnectAllFail, if_pos hcond]
      refine ⟨?_, ?_, ihr.2.2⟩
      · simp [countAttempts, List.countP_cons] at ihr ⊢
        omega
      · simp only [scheduledDelays, List.filterMap_cons] at ihr ⊢
        rw [ihr.2.1]
        have hsub : r - retry = (r - (retry + 1)) + 1 := by omega
        rw [hsub, List.replicate_succ]
    · have hretry : retry = r := by omega
      have hcond : ¬(r = 0 ∨ r > retry) := by omega
      simp only [tryToConnectAllFail, if_neg hcond]
      refine ⟨?_, ?_, by rw [hretry]⟩
      · have h0 : r - retry = 0 := by omega
        simp [countAttempts, h0]
      · have h0 : r - retry = 0 := by omega
        simp [scheduledDelays, h0]

theorem tryToConnectAllFail_zero (i : Nat) :
    ∀ fuel retry,
    (tryToConnectAllFail 0 i fuel retry).2 = none ∧
    (∀ k, RetryEv.callbackErr k ∉ (tryToConnectAllFail 0 i fuel retry).1) := by
  intro fuel
  induction fuel with
  | zero => intro retry; exact ⟨rfl, fun k => by simp [tryToConnectAllFail]⟩
  | succ f ih =>
    intro retry
    have ihr := ih (retry + 1)
    refine ⟨ihr.1, fun k => ?_⟩
    simp only [tryToConnectAllFail, if_pos (Or.inl rfl)]
    simpa using ihr.2 k

/-- C3: with `reconnectStrategy = \x7bretries: r, interval: i\x7d`, `r > 0`,
and every connect attempt failing, exactly `r + 1` attempts are made (the
initial attempt plus `r` retries, each scheduled `i` ms after the previous
failure) and `Connection.initialized` is rejected with the error of the
last attempt; with `r = 0` the loop keeps retrying for every unrolling
bound, never invokes the terminal error callback, and `initialized` never
rejects from connect failures. -/
theorem tryToConnect_retry_budget :
    (∀ r i fuel, 0 < r → r < fuel →
      countAttempts (tryToConnectAllFail r i fuel 0).1 = r + 1 ∧
      scheduledDelays (tryToConnectAllFail r i fuel 0).1 =
        List.replicate r i ∧
      initializedAllFail r i fuel = PState.rejected r) ∧
    (∀ i fuel retry,
      (∀ k, RetryEv.callbackErr k ∉ (tryToConnectAllFail 0 i fuel retry).1) ∧
      initializedAllFail 0 i fuel = PState.pending) := by
  constructor
  · intro r i fuel hr hfuel
    have h := tryToConnectAllFail_pos r i hr fuel 0 (by omega) (by omega)
    simp only [Nat.sub_zero] at h
    exact ⟨h.1, h.2.1, by simp [initializedAllFail, h.2.2]⟩
  · intro i fuel retry
    refine ⟨(tryToConnectAllFail_zero i fuel retry).2, ?_⟩
    simp [initializedAllFail, (tryToConnectAllFail_zero i fuel 0).1]

/-- C3 witness: `retries = 2, interval = 10` makes exactly 3 attempts, two
scheduled 10 ms apart, then rejects with the last error; `retries = 0`
never rejects. -/
theorem tryToConnect_retry_budget_witness :
    (countAttempts (tryToConnectAllFail 2 10 5 0).1 = 3 ∧
      scheduledDelays (tryToConnectAllFail 2 10 5 0).1 =
        List.replicate 2 10 ∧
      initializedAllFail 2 10 5 = PState.rejected 2) ∧
    ((∀ k, RetryEv.callbackErr k ∉ (tryToConnectAllFail 0 10 4 0).1) ∧
      initializedAllFail 0 10 4 = PState.pending) :=
  ⟨tryToConnect_retry_budget.1 2 10 5 (by decide) (by decide),
   tryToConnect_retry_budget.2 10 4 0⟩

theorem declareExchange_some (st : ConnReg) (n : String) (t : Option String)
    (o : Option ExchangeDeclOptions) (e : ExchangeObj)
    (h : st.exchanges n = some e) : declareExchange st n t o = (e, st) := by
  unfold declareExchange
  rw [h]

theorem declareExchange_none (st : ConnReg) (n : String) (t : Option String)
    (o : Option ExchangeDeclOptions) (h : st.exchanges n = none) :
    declareExchange st n t o =
      (⟨st.nextId, n, t, o⟩,
        { st with
          exchanges := st.exchanges.insertS n ⟨st.nextId, n, t, o⟩,
          nextId := st.nextId + 1 }) := by
  unfold declareExchange
  rw [h]

theorem declareQueue_some (st : ConnReg) (n : String)
    (o : Option QueueDeclOptions) (q : QueueObj)
    (h : st.queues n = some q) : declareQueue st n o = (q, st) := by
  unfold declareQueue
  rw [h]

theorem declareQueue_none (st : ConnReg) (n : String)
    (o : Option QueueDeclOptions) (h : st.queues n = none) :
    declareQueue st n o =
      (⟨st.nextId, n, o⟩,
        { st with
          queues := st.queues.insertS n ⟨st.nextId, n, o⟩,
          nextId := st.nextId + 1 }) := by
  unfold declareQueue
  rw [h]

theorem regWF_declareExchange (st : ConnReg) (name : String)
    (etype : Option String) (opts : Option ExchangeDeclOptions)
    (h : regWF st) : regWF (declareExchange st name etype opts).2 := by
  cases hx : st.exchanges name with
  | some e => rw [declareExchange_some st name etype opts e hx]; exact h
  | none =>
    rw [declareExchange_none st name etype opts hx]
    refine ⟨fun n e he => ?_, fun n q hq => ?_⟩
    · simp only [StrMap.insertS] at he
      by_cases hn : n = name
      · rw [if_pos hn] at he
        injection he with hmk
        rw [← hmk]
        exact Nat.lt_succ_self _
      · rw [if_neg hn] at he
        exact Nat.lt_succ_of_lt (h.1 n e he)
    · exact Nat.lt_succ_of_lt (h.2 n q hq)

theorem regWF_declareQueue (st : ConnReg) (name : String)
    (opts : Option QueueDeclOptions) (h : regWF st) :
    regWF (declareQueue st name opts).2 := by
  cases hx : st.queues name with
  | some q => rw [declareQueue_some st name opts q hx]; exact h
  | none =>
    rw [declareQueue_none st name opts hx]
    refine ⟨fun n e he => ?_, fun n q hq => ?_⟩
    · exact Nat.lt_succ_of_lt (h.1 n e he)
    · simp only [StrMap.insertS] at hq
      by_cases hn : n = name
      · rw [if_pos hn] at hq
        injection hq with hmk
        rw [← hmk]
        exact Nat.lt_succ_self _
      · rw [if_neg hn] at hq
        exact Nat.lt_succ_of_lt (h.2 n q hq)

theorem regWF_removeExchange (st : ConnReg) (name : String) (h : regWF st) :
    regWF (removeExchange st name) := by
  refine ⟨fun n e he => ?_, h.2⟩
  simp only [removeExchange, StrMap.eraseS] at he
  by_cases hn : n = name
  · rw [if_pos hn] at he; cases he
  · rw [if_neg hn] at he; exact h.1 n e he

theorem regWF_removeQueue (st : ConnReg) (name : String) (h : regWF st) :
    regWF (removeQueue st name) := by
  refine ⟨h.1, fun n q hq => ?_⟩
  simp only [removeQueue, StrMap.eraseS] at hq
  by_cases hn : n = name
  · rw [if_pos hn] at hq; cases hq
  · rw [if_neg hn] at hq; exact h.2 n q hq

/-- C7: `declareExchange` (resp. `declareQueue`) is idempotent by name:
while an instance named `N` is registered, every call returns that very
object and leaves the state unchanged, the later call's `type` and
`options` being ignored; a declare on a free name registers a fresh
instance under that name; and after the registry removal performed by
`delete`/`close`, a fresh declare creates and registers a new instance,
distinct from the removed one.  (The registry is a map, so it holds at
most one instance per name by construction.) -/
theorem declare_idempotent_by_name :
    (∀ (st : ConnReg) (n : String) (t : Option String)
        (o : Option ExchangeDeclOptions) (e : ExchangeObj),
      st.exchanges n = some e → declareExchange st n t o = (e, st)) ∧
    (∀ (st : ConnReg) (n : String) (t : Option String)
        (o : Option ExchangeDeclOptions),
      st.exchanges n = none →
        (declareExchange st n t o).1 = ⟨st.nextId, n, t, o⟩ ∧
        (declareExchange st n t o).2.exchanges n = some ⟨st.nextId, n, t, o⟩) ∧
    (∀ (st : ConnReg) (n : String) (t t' : Option String)
        (o o' : Option ExchangeDeclOptions),
      st.exchanges n = none →
        declareExchange (declareExchange st n t o).2 n t' o' =
          ((declareExchange st n t o).1, (declareExchange st n t o).2)) ∧
    (∀ (st : ConnReg) (n : String) (t : Option String)
        (o : Option ExchangeDeclOptions) (e : ExchangeObj),
      regWF st → st.exchanges n = some e →
        (declareExchange (removeExchange st n) n t o).1 ≠ e ∧
        (declareExchange (removeExchange st n) n t o).2.exchanges n =
          some (declareExchange (removeExchange st n) n t o).1) ∧
    (∀ (st : ConnReg) (n : String) (o : Option QueueDeclOptions)
        (q : QueueObj),
      st.queues n = some q → declareQueue st n o = (q, st)) ∧
    (∀ (st : ConnReg) (n : String) (o o' : Option QueueDeclOptions),
      st.queues n = none →
        declareQueue (declareQueue st n o).2 n o' =
          ((declareQueue st n o).1, (declareQueue st n o).2)) ∧
    (∀ (st : ConnReg) (n : String) (o : Option QueueDeclOptions)
        (q : QueueObj),
      regWF st → st.queues n = some q →
        (declareQueue (removeQueue st n) n o).1 ≠ q ∧
        (declareQueue (removeQueue st n) n o).2.queues n =
          some (declareQueue (removeQueue st n) n o).1) := by
  have hfree : ∀ (st : ConnReg) (n : String) (t : Option String)
      (o : Option ExchangeDeclOptions),
      st.exchanges n = none →
        (declareExchange st n t o).1 = ⟨st.nextId, n, t, o⟩ ∧
        (declareExchange st n t o).2.exchanges n =
          some ⟨st.nextId, n, t, o⟩ := by
    intro st n t o hn
    rw [declareExchange_none st n t o hn]
    exact ⟨rfl, StrMap.insertS_self _ _ _⟩
  have hqfree : ∀ (st : ConnReg) (n : String) (o : Option QueueDeclOptions),
      st.queues n = none →
        (declareQueue st n o).1 = ⟨st.nextId, n, o⟩ ∧
        (declareQueue st n o).2.queues n = some ⟨st.nextId, n, o⟩ := by
    intro st n o hn
    rw [declareQueue_none st n o hn]
    exact ⟨rfl, StrMap.insertS_self _ _ _⟩
  refine ⟨fun st n t o e he => declareExchange_some st n t o e he, hfree,
    ?_, ?_, fun st n o q hq => declareQueue_some st n o q hq, ?_, ?_⟩
  · intro st n t t' o o' hn
    have h1 := hfree st n t o hn
    have h2 := declareExchange_some (declareExchange st n t o).2 n t' o' _ h1.2
    rw [h2, h1.1]
  · intro st n t o e hwf he
    have hnone : (removeExchange st n).exchanges n = none :=
      StrMap.eraseS_self _ _
    have hfr := hfree (removeExchange st n) n t o hnone
    have hid : e.objId < st.nextId := hwf.1 n e he
    refine ⟨?_, by rw [hfr.2, hfr.1]⟩
    rw [hfr.1]
    intro hcontra
    have hids : st.nextId = e.objId := congrArg ExchangeObj.objId hcontra
    omega
  · intro st n o o' hn
    have h1 := hqfree st n o hn
    have h2 := declareQueue_some (declareQueue st n o).2 n o' _ h1.2
    rw [h2, h1.1]
  · intro st n o q hwf hq
    have hnone : (removeQueue st n).queues n = none :=
      StrMap.eraseS_self _ _
    have hfr := hqfree (removeQueue st n) n o hnone
    have hid : q.objId < st.nextId := hwf.2 n q hq
    refine ⟨?_, by rw [hfr.2, hfr.1]⟩
    rw [hfr.1]
    intro hcontra
    have hids : st.nextId = q.objId := congrArg QueueObj.objId hcontra
    omega

theorem regWF_regOneE : regWF regOneE := by
  constructor
  · intro n e he
    simp only [regOneE, StrMap.insertS, StrMap.emptyS] at he
    by_cases hn : n = "e"
    · rw [if_pos hn] at he
      injection he with hmk
      rw [← hmk]
      exact Nat.lt_succ_self 0
    · rw [if_neg hn] at he; cases he
  · intro n q hq
    cases hq

/-- C7 witness: on a concrete connection state, re-declaring `"e"` with a
different type returns the first instance unchanged, and after removal a
declare yields a distinct instance. -/
theorem declare_idempotent_by_name_witness :
    declareExchange regOneE "e" (some "direct") none =
      (⟨0, "e", some "topic", none⟩, regOneE) ∧
    (declareExchange (removeExchange regOneE "e") "e" (some "direct")
        none).1 ≠ ⟨0, "e", some "topic", none⟩ :=
  ⟨declare_idempotent_by_name.1 regOneE "e" (some "direct") none _
      (by simp [regOneE, StrMap.insertS]),
    (declare_idempotent_by_name.2.2.2.1 regOneE "e" (some "direct") none _
      regWF_regOneE (by simp [regOneE, StrMap.insertS])).1⟩

/-- C4 counterexample: when `createChannel` itself fails (a failure point
of `_initialize`), the exchange's `initialized` future is rejected yet the
entity is still present in `Connection._exchanges` — the claimed
implication `rejected ⇒ not registered` fails at this input (and likewise
for a queue). -/
theorem initialize_chanfail_keeps_registry_cex :
    (initializeExchange StrMap.emptyS "e" 0 (some 5) none).2 =
      PState.rejected 5 ∧
    (initializeExchange StrMap.emptyS "e" 0 (some 5) none).1 "e" = some 0 ∧
    (newQueue StrMap.emptyS "q" 1 (some 5) none).2 = PState.rejected 5 ∧
    (newQueue StrMap.emptyS "q" 1 (some 5) none).1 "q" = some 1 := by
  refine ⟨rfl, ?_, rfl, ?_⟩ <;> decide

/-- C4 amended: only a failure of the broker declaration
(`assertExchange` / `assertQueue`) removes the entity from the Connection's
registry before rejecting `initialized`; a failure of channel creation
rejects `initialized` but leaves the entity registered; on success the
entity stays registered and `initialized` resolves.  Hence a rejected
`initialized` implies absence from the registry only for
declaration-stage failures. -/
theorem initialize_registry_discipline :
    (∀ (reg : StrMap Nat) (name : String) (selfId : Nat) (e : Nat),
      initializeExchange reg name selfId none (some e) =
        ((reg.insertS name selfId).eraseS name, PState.rejected e) ∧
      (initializeExchange reg name selfId none (some e)).1 name = none) ∧
    (∀ (reg : StrMap Nat) (name : String) (selfId : Nat) (e : Nat)
        (dr : Option Nat),
      initializeExchange reg name selfId (some e) dr =
        (reg.insertS name selfId, PState.rejected e) ∧
      (initializeExchange reg name selfId (some e) dr).1 name =
        some selfId) ∧
    (∀ (reg : StrMap Nat) (name : String) (selfId : Nat),
      initializeExchange reg name selfId none none =
        (reg.insertS name selfId, PState.resolved)) ∧
    (∀ (reg : StrMap Nat) (name : String) (selfId : Nat) (e : Nat),
      newQueue reg name selfId none (some e) =
        ((reg.insertS name selfId).eraseS name, PState.rejected e) ∧
      (newQueue reg name selfId none (some e)).1 name = none) ∧
    (∀ (reg : StrMap Nat) (name : String) (selfId : Nat) (e : Nat)
        (dr : Option Nat),
      newQueue reg name selfId (some e) dr =
        (reg.insertS name selfId, PState.rejected e) ∧
      (newQueue reg name selfId (some e) dr).1 name = some selfId) ∧
    (∀ (reg : StrMap Nat) (name : String) (selfId : Nat),
      newQueue reg name selfId none none =
        (reg.insertS name selfId, PState.resolved)) := by
  refine ⟨fun reg name selfId e => ⟨rfl, ?_⟩,
    fun reg name selfId e dr => ⟨rfl, ?_⟩,
    fun reg name selfId => rfl,
    fun reg name selfId e => ⟨rfl, ?_⟩,
    fun reg name selfId e dr => ⟨rfl, ?_⟩,
    fun reg name selfId => rfl⟩
  · exact StrMap.eraseS_self _ _
  · exact StrMap.insertS_self _ _ _
  · exact StrMap.eraseS_self _ _
  · exact StrMap.insertS_self _ _ _

/-- C10: on a message that carries no receiving channel (constructed
locally rather than delivered by a consumer), `ack`, `nack` and `reject`
are silent no-ops: no channel operation is issued and no exception
escapes. -/
theorem ack_without_channel_noop (m : MsgHandle) (a r r' : Option Bool)
    (h : m.channel = none) :
    messageAck m a = Except.ok [] ∧
    messageNack m r = Except.ok [] ∧
    messageReject m r' = Except.ok [] := by
  have hs : m.channel.isSome = false := by rw [h]; rfl
  refine ⟨?_, ?_, ?_⟩ <;>
    simp [messageAck, messageNack, messageReject, hs]

/-- C10 witness: concrete locally-constructed message. -/
theorem ack_without_channel_noop_witness :
    messageAck ⟨none, 0⟩ none = Except.ok [] ∧
    messageNack ⟨none, 0⟩ (some true) = Except.ok [] ∧
    messageReject ⟨none, 0⟩ (some false) = Except.ok [] :=
  ack_without_channel_noop ⟨none, 0⟩ none (some true) (some false) rfl

theorem char_toNat_facts (c : Char) :
    c.toNat < 1114112 ∧ (c.toNat < 55296 ∨ 57343 < c.toNat) := by
  rcases c.valid with h | h
  · exact ⟨by simp only [Char.toNat]; omega, Or.inl h⟩
  · exact ⟨h.2, Or.inr h.1⟩

theorem utf8DecodeAux_encodeChar (c : Char) (rest : List Nat) (fuel : Nat) :
    utf8DecodeAux (fuel + 1) (utf8EncodeChar c ++ rest) =
      (utf8DecodeAux fuel rest).map (fun cs => c :: cs) := by
  obtain ⟨hmax, hsurr⟩ := char_toNat_facts c
  by_cases h1 : c.toNat < 128
  · simp only [utf8EncodeChar, if_pos h1, List.cons_append, List.nil_append]
    simp only [utf8DecodeAux, if_pos h1, Char.ofNat_toNat]
  · by_cases h2 : c.toNat < 2048
    · simp only [utf8EncodeChar, if_neg h1, if_pos h2, List.cons_append,
        List.nil_append]
      have hb : ¬(192 + c.toNat / 64 < 128) := by omega
      have hb2 : 194 ≤ 192 + c.toNat / 64 ∧ 192 + c.toNat / 64 < 224 := by
        omega
      have hc : isContByte (128 + c.toNat % 64) := by
        constructor <;> omega
      have hv : (192 + c.toNat / 64 - 192) * 64 + (128 + c.toNat % 64 - 128) =
          c.toNat := by omega
      simp only [utf8DecodeAux, if_neg hb, if_pos hb2, if_pos hc, hv,
        Char.ofNat_toNat]
    · by_cases h3 : c.toNat < 65536
      · simp only [utf8EncodeChar, if_neg h1, if_neg h2, if_pos h3,
          List.cons_append, List.nil_append]
        have hb : ¬(224 + c.toNat / 4096 < 128) := by omega
        have hb2 : ¬(194 ≤ 224 + c.toNat / 4096 ∧ 224 + c.toNat / 4096 < 224) := by
          omega
        have hb3 : 224 ≤ 224 + c.toNat / 4096 ∧ 224 + c.toNat / 4096 < 240 := by
          omega
        have hv : (224 + c.toNat / 4096 - 224) * 4096 +
            (128 + c.toNat / 64 % 64 - 128) * 64 + (128 + c.toNat % 64 - 128) =
            c.toNat := by omega
        have hcond : isContByte (128 + c.toNat / 64 % 64) ∧
            isContByte (128 + c.toNat % 64) ∧
            2048 ≤ c.toNat ∧ ¬(55296 ≤ c.toNat ∧ c.toNat < 57344) := by
          exact ⟨⟨by omega, by omega⟩, ⟨by omega, by omega⟩, by omega,
            by omega⟩
        simp only [utf8DecodeAux, if_neg hb, if_neg hb2, if_pos hb3,
          hv, if_pos hcond, Char.ofNat_toNat]
      · simp only [utf8EncodeChar, if_neg h1, if_neg h2, if_neg h3,
          List.cons_append, List.nil_append]
        have hb : ¬(240 + c.toNat / 262144 < 128) := by omega
        have hb2 : ¬(194 ≤ 240 + c.toNat / 262144 ∧
            240 + c.toNat / 262144 < 224) := by omega
        have hb3 : ¬(224 ≤ 240 + c.toNat / 262144 ∧
            240 + c.toNat / 262144 < 240) := by omega
        have hb4 : 240 ≤ 240 + c.toNat / 262144 ∧
            240 + c.toNat / 262144 < 245 := by omega
        have hv : (240 + c.toNat / 262144 - 240) * 262144 +
            (128 + c.toNat / 4096 % 64 - 128) * 4096 +
            (128 + c.toNat / 64 % 64 - 128) * 64 + (128 + c.toNat % 64 - 128) =
            c.toNat := by omega
        have hcond : isContByte (128 + c.toNat / 4096 % 64) ∧
            isContByte (128 + c.toNat / 64 % 64) ∧
            isContByte (128 + c.toNat % 64) ∧
            65536 ≤ c.toNat ∧ c.toNat < 1114112 := by
          exact ⟨⟨by omega, by omega⟩, ⟨by omega, by omega⟩,
            ⟨by omega, by omega⟩, by omega, by omega⟩
        simp only [utf8DecodeAux, if_neg hb, if_neg hb2, if_neg hb3,
          if_pos hb4, hv, if_pos hcond, Char.ofNat_toNat]

theorem utf8DecodeAux_encodeList (cs : List Char) :
    ∀ fuel, cs.length ≤ fuel →
    utf8DecodeAux fuel (utf8EncodeList cs) = some cs := by
  induction cs with
  | nil =>
    intro fuel _
    cases fuel <;> rfl
  | cons c rest ih =>
    intro fuel hle
    cases fuel with
    | zero => simp at hle
    | succ f =>
      rw [utf8EncodeList, utf8DecodeAux_encodeChar c _ f,
        ih f (by simpa using hle)]
      rfl

theorem utf8EncodeChar_length_pos (c : Char) : 1 ≤ (utf8EncodeChar c).length := by
  by_cases h1 : c.toNat < 128 <;> by_cases h2 : c.toNat < 2048 <;>
    by_cases h3 : c.toNat < 65536 <;> simp [utf8EncodeChar, h1, h2, h3]

theorem utf8EncodeList_length (cs : List Char) :
    cs.length ≤ (utf8EncodeList cs).length := by
  induction cs with
  | nil => simp [utf8EncodeList]
  | cons c rest ih =>
    rw [utf8EncodeList]
    simp only [List.length_append, List.length_cons]
    have := utf8EncodeChar_length_pos c
    omega

theorem utf8_roundtrip (s : String) : utf8Decode (utf8Encode s) = some s := by
  unfold utf8Decode utf8Encode
  rw [utf8DecodeAux_encodeList s.data _ (utf8EncodeList_length s.data)]
  cases s
  rfl

theorem char_toNat_ofNat_digit (n : Nat) (h : n < 10) :
    (Char.ofNat (48 + n)).toNat = 48 + n := by
  interval_cases n <;> decide

theorem natChars_digits (n : Nat) :
    natChars n ≠ [] ∧ ∀ c ∈ natChars n, isDigitC c = true := by
  induction n using Nat.strong_induction_on with
  | _ n ih =>
    by_cases h : n < 10
    · rw [natChars, if_pos h]
      refine ⟨by simp, fun c hc => ?_⟩
      simp only [List.mem_singleton] at hc
      subst hc
      simp [isDigitC, char_toNat_ofNat_digit n h]
      omega
    · rw [natChars, if_neg h]
      have ihd := ih (n / 10) (Nat.div_lt_self (by omega) (by omega))
      refine ⟨by simp [ihd.1], fun c hc => ?_⟩
      rw [List.mem_append] at hc
      rcases hc with hc | hc
      · exact ihd.2 c hc
      · simp only [List.mem_singleton] at hc
        subst hc
        have hm : n % 10 < 10 := Nat.mod_lt _ (by omega)
        simp [isDigitC, char_toNat_ofNat_digit _ hm]
        omega

theorem natChars_head (n : Nat) :
    ∃ d t, natChars n = d :: t ∧ isDigitC d = true := by
  obtain ⟨hne, hdig⟩ := natChars_digits n
  cases hnc : natChars n with
  | nil => exact absurd hnc hne
  | cons d t =>
    exact ⟨d, t, rfl, hdig d (by rw [hnc]; exact List.mem_cons_self d t)⟩

theorem digitsToNat_append_last (l : List Char) (d : Char) :
    digitsToNat (l ++ [d]) = digitsToNat l * 10 + digitVal d := by
  simp [digitsToNat, List.foldl_append]

theorem digitsToNat_natChars (n : Nat) : digitsToNat (natChars n) = n := by
  induction n using Nat.strong_induction_on with
  | _ n ih =>
    by_cases h : n < 10
    · rw [natChars, if_pos h]
      simp [digitsToNat, digitVal, char_toNat_ofNat_digit n h]
    · rw [natChars, if_neg h]
      rw [digitsToNat_append_last,
        ih (n / 10) (Nat.div_lt_self (by omega) (by omega))]
      have hm : n % 10 < 10 := Nat.mod_lt _ (by omega)
      simp [digitVal, char_toNat_ofNat_digit _ hm]
      omega

theorem takeDigits_all (ds : List Char) (hds : ∀ c ∈ ds, isDigitC c = true) :
    ∀ rest, notDigitStart rest = true →
    takeDigits (ds ++ rest) = (ds, rest) := by
  induction ds with
  | nil =>
    intro rest hrest
    cases rest with
    | nil => rfl
    | cons c t =>
      simp only [notDigitStart, Bool.not_eq_true'] at hrest
      simp [takeDigits, hrest]
  | cons c ds ih =>
    intro rest hrest
    have hc : isDigitC c = true := hds c (List.mem_cons_self c ds)
    have iht := ih (fun x hx => hds x (List.mem_cons_of_mem c hx)) rest hrest
    simp [takeDigits, hc, iht]

theorem hexVal_hexDigitChar (n : Nat) (h : n < 16) :
    hexVal (hexDigitChar n) = some n := by
  interval_cases n <;> decide

theorem parseStringBody_escapeChar (c : Char) (tail : List Char) (fuel : Nat) :
    parseStringBody (fuel + 1) (escapeChar c ++ tail) =
      (parseStringBody fuel tail).map (fun p => (c :: p.1, p.2)) := by
  by_cases h1 : c = '"'
  · subst h1; simp [escapeChar, parseStringBody, unescapeSimple]
  · by_cases h2 : c = '\\'
    · subst h2; simp [escapeChar, parseStringBody, unescapeSimple]
    · by_cases h3 : c = Char.ofNat 8
      · subst h3; simp [escapeChar, parseStringBody, unescapeSimple]
      · by_cases h4 : c = Char.ofNat 9
        · subst h4; simp [escapeChar, parseStringBody, unescapeSimple]
        · by_cases h5 : c = Char.ofNat 10
          · subst h5; simp [escapeChar, parseStringBody, unescapeSimple]
          · by_cases h6 : c = Char.ofNat 12
            · subst h6; simp [escapeChar, parseStringBody, unescapeSimple]
            · by_cases h7 : c = Char.ofNat 13
              · subst h7; simp [escapeChar, parseStringBody, unescapeSimple]
              · by_cases h8 : c.toNat < 32
                · have hhi : c.toNat / 16 < 16 := by omega
                  have hlo : c.toNat % 16 < 16 := by omega
                  have hx0 : hexVal '0' = some 0 := by decide
                  have hv : ((0 * 16 + 0) * 16 + c.toNat / 16) * 16 +
                      c.toNat % 16 = c.toNat := by omega
                  simp only [escapeChar, if_neg h1, if_neg h2, if_neg h3,
                    if_neg h4, if_neg h5, if_neg h6, if_neg h7, if_pos h8,
                    List.cons_append, List.nil_append]
                  simp only [parseStringBody,
                    if_neg (show ¬(('\\' : Char) = '"') by decide),
                    if_pos (show ('\\' : Char) = '\\' from rfl),
                    if_pos (show ('u' : Char) = 'u' from rfl),
                    hx0, hexVal_hexDigitChar _ hhi, hexVal_hexDigitChar _ hlo,
                    hv]
                  rw [if_pos (Or.inl (show c.toNat < 55296 by omega)),
                    Char.ofNat_toNat]
                  simp
                · have hne : c ≠ '"' := h1
                  simp only [escapeChar, if_neg h1, if_neg h2, if_neg h3,
                    if_neg h4, if_neg h5, if_neg h6, if_neg h7, if_neg h8,
                    List.cons_append, List.nil_append]
                  simp only [parseStringBody, if_neg h1, if_neg h2]

theorem parseStringBody_escapeList (cs : List Char) :
    ∀ fuel rest, cs.length + 1 ≤ fuel →
    parseStringBody fuel (escapeList cs ++ '"' :: rest) = some (cs, rest) := by
  induction cs with
  | nil =>
    intro fuel rest hle
    cases fuel with
    | zero => omega
    | succ f => simp [escapeList, parseStringBody]
  | cons c cs ih =>
    intro fuel rest hle
    cases fuel with
    | zero => omega
    | succ f =>
      rw [escapeList, List.append_assoc, parseStringBody_escapeChar,
        ih f rest (by simp at hle ⊢; omega)]
      rfl

theorem escapeChar_length_pos (c : Char) : 1 ≤ (escapeChar c).length := by
  unfold escapeChar
  split
  · simp
  · split
    · simp
    · split
      · simp
      · split
        · simp
        · split
          · simp
          · split
            · simp
            · split
              · simp
              · split <;> simp

theorem escapeList_length (cs : List Char) :
    cs.length ≤ (escapeList cs).length := by
  induction cs with
  | nil => simp [escapeList]
  | cons c cs ih =>
    rw [escapeList]
    simp only [List.length_append, List.length_cons]
    have := escapeChar_length_pos c
    omega

theorem jsonStringifyA_cons (w : JValue) (a : JArr) :
    jsonStringifyA (JArr.cons w a) = jsonStringifyV w ++ jsonArrTail a := by
  cases a <;> simp [jsonStringifyA, jsonArrTail]

theorem jsonStringifyO_cons (k : String) (v : JValue) (o : JObj) :
    jsonStringifyO (JObj.cons k v o) =
      quoteChars k ++ ':' :: (jsonStringifyV v ++ jsonObjTail o) := by
  cases o <;> simp [jsonStringifyO, jsonObjTail]

theorem natChars_length_pos (n : Nat) : 1 ≤ (natChars n).length := by
  obtain ⟨d, t, h, _⟩ := natChars_head n
  simp [h]

theorem isDigitC_ne_keys (c : Char) (h : isDigitC c = true) :
    c ≠ 'n' ∧ c ≠ 't' ∧ c ≠ 'f' ∧ c ≠ '"' ∧ c ≠ '-' ∧ c ≠ '[' ∧
      c ≠ lbraceC :=
  ⟨fun h' => absurd (h' ▸ h) (by decide), fun h' => absurd (h' ▸ h) (by decide),
    fun h' => absurd (h' ▸ h) (by decide), fun h' => absurd (h' ▸ h) (by decide),
    fun h' => absurd (h' ▸ h) (by decide), fun h' => absurd (h' ▸ h) (by decide),
    fun h' => absurd (h' ▸ h) (by decide)⟩

theorem jsonStringifyV_head (v : JValue) :
    ∃ d t, jsonStringifyV v = d :: t ∧ jsonStartOk d := by
  cases v with
  | null => exact ⟨'n', _, rfl, Or.inl rfl⟩
  | bool b =>
    cases b
    · exact ⟨'f', _, rfl, Or.inr (Or.inr (Or.inl rfl))⟩
    · exact ⟨'t', _, rfl, Or.inr (Or.inl rfl)⟩
  | num m =>
    by_cases hm : m < 0
    · exact ⟨'-', natChars m.natAbs, by simp [jsonStringifyV, intChars, hm],
        Or.inr (Or.inr (Or.inr (Or.inr (Or.inl rfl))))⟩
    · obtain ⟨d, t, hnc, hd⟩ := natChars_head m.toNat
      refine ⟨d, t, ?_, Or.inr (Or.inr (Or.inr (Or.inr (Or.inr (Or.inr
        (Or.inr hd))))))⟩
      simp [jsonStringifyV, intChars, hm, hnc]
  | str s => exact ⟨'"', _, rfl, Or.inr (Or.inr (Or.inr (Or.inl rfl)))⟩
  | arr a =>
    exact ⟨'[', _, rfl, Or.inr (Or.inr (Or.inr (Or.inr (Or.inr
      (Or.inl rfl)))))⟩
  | obj o =>
    exact ⟨lbraceC, _, rfl, Or.inr (Or.inr (Or.inr (Or.inr (Or.inr
      (Or.inr (Or.inl rfl))))))⟩

theorem jsonStartOk_ne_close (d : Char) (h : jsonStartOk d) :
    d ≠ ']' ∧ d ≠ rbraceC := by
  rcases h with rfl | rfl | rfl | rfl | rfl | rfl | rfl | h
  · exact ⟨by decide, by decide⟩
  · exact ⟨by decide, by decide⟩
  · exact ⟨by decide, by decide⟩
  · exact ⟨by decide, by decide⟩
  · exact ⟨by decide, by decide⟩
  · exact ⟨by decide, by decide⟩
  · exact ⟨by decide, by decide⟩
  · exact ⟨fun h' => absurd (h' ▸ h) (by decide),
      fun h' => absurd (h' ▸ h) (by decide)⟩

theorem stringMk_data (s : String) : String.mk s.data = s := rfl

theorem sizeV_pos (v : JValue) : 1 ≤ sizeV v := by
  cases v <;> simp [sizeV]

theorem notDigitStart_rbrack (r : List Char) :
    notDigitStart (']' :: r) = true := rfl

theorem notDigitStart_comma (r : List Char) :
    notDigitStart (',' :: r) = true := rfl

theorem notDigitStart_rbrace (r : List Char) :
    notDigitStart (rbraceC :: r) = true := rfl

mutual
theorem parseJ_stringifyV : ∀ (v : JValue) (fuel : Nat) (rest : List Char),
    sizeV v ≤ fuel → notDigitStart rest = true →
    parseJ fuel (jsonStringifyV v ++ rest) = some (v, rest)
  | v, 0, _, hf, _ => by have := sizeV_pos v; omega
  | JValue.null, fuel + 1, rest, _, _ => by
    simp [jsonStringifyV, parseJ]
  | JValue.bool true, fuel + 1, rest, _, _ => by
    simp [jsonStringifyV, parseJ]
  | JValue.bool false, fuel + 1, rest, _, _ => by
    simp [jsonStringifyV, parseJ]
  | JValue.num m, fuel + 1, rest, hf, hr => by
    by_cases hm : m < 0
    · obtain ⟨d0, t0, hnc, hd0⟩ := natChars_head m.natAbs
      have htd := takeDigits_all (natChars m.natAbs)
        (natChars_digits _).2 rest hr
      have hdn := digitsToNat_natChars m.natAbs
      rw [hnc] at htd hdn
      simp only [List.cons_append] at htd
      have hstr : jsonStringifyV (JValue.num m) = '-' :: natChars m.natAbs := by
        simp [jsonStringifyV, intChars, hm]
      rw [hstr, hnc]
      simp only [List.cons_append]
      simp only [parseJ]
      rw [if_neg (by decide), if_neg (by decide), if_neg (by decide),
        if_neg (by decide), if_pos trivial]
      rw [htd]
      show some (JValue.num (-(digitsToNat (d0 :: t0) : Int)), rest) =
        some (JValue.num m, rest)
      rw [hdn]
      have hneg : -((m.natAbs : Nat) : Int) = m := by omega
      rw [hneg]
    · obtain ⟨d0, t0, hnc, hd0⟩ := natChars_head m.toNat
      have hne := isDigitC_ne_keys d0 hd0
      have htd := takeDigits_all (natChars m.toNat)
        (natChars_digits _).2 rest hr
      have hdn := digitsToNat_natChars m.toNat
      rw [hnc] at htd hdn
      simp only [List.cons_append] at htd
      have hstr : jsonStringifyV (JValue.num m) = natChars m.toNat := by
        simp [jsonStringifyV, intChars, hm]
      rw [hstr, hnc]
      simp only [List.cons_append]
      simp only [parseJ]
      rw [if_neg hne.1, if_neg hne.2.1, if_neg hne.2.2.1, if_neg hne.2.2.2.1,
        if_neg hne.2.2.2.2.1, if_neg hne.2.2.2.2.2.1,
        if_neg hne.2.2.2.2.2.2, if_pos hd0]
      rw [htd]
      show some (JValue.num ((digitsToNat (d0 :: t0) : Nat) : Int), rest) =
        some (JValue.num m, rest)
      rw [hdn]
      have hpos : ((m.toNat : Nat) : Int) = m := by omega
      rw [hpos]
  | JValue.str s, fuel + 1, rest, hf, _ => by
    have hlen : s.data.length + 1 ≤ fuel := by
      have hsd : s.length = s.data.length := rfl
      simp [sizeV] at hf
      omega
    have hq : jsonStringifyV (JValue.str s) ++ rest =
        '"' :: (escapeList s.data ++ ('"' :: rest)) := by
      simp [jsonStringifyV, quoteChars]
    rw [hq]
    simp only [parseJ]
    rw [if_neg (by decide), if_neg (by decide), if_neg (by decide),
      if_pos trivial]
    rw [parseStringBody_escapeList s.data fuel rest hlen]
    simp [stringMk_data]
  | JValue.arr JArr.nil, fuel + 1, rest, _, _ => by
    simp [jsonStringifyV, jsonStringifyA, parseJ]
  | JValue.arr (JArr.cons w a), fuel + 1, rest, hf, _ => by
    obtain ⟨d0, t0, hw, hok⟩ := jsonStringifyV_head w
    have hdc := jsonStartOk_ne_close d0 hok
    have hsz : sizeA (JArr.cons w a) ≤ fuel := by
      simp [sizeV] at hf; omega
    have harr := parseArrElems_stringifyA (JArr.cons w a) (by simp) fuel
      rest hsz
    have hexp : jsonStringifyV (JValue.arr (JArr.cons w a)) ++ rest =
        '[' :: (jsonStringifyA (JArr.cons w a) ++ (']' :: rest)) := by
      simp [jsonStringifyV]
    rw [hexp, jsonStringifyA_cons, hw]
    simp only [List.cons_append, List.append_assoc]
    simp only [parseJ]
    rw [if_neg (by decide), if_neg (by decide), if_neg (by decide),
      if_neg (by decide), if_neg (by decide), if_pos trivial]
    rw [if_neg hdc.1]
    have hre : d0 :: (t0 ++ (jsonArrTail a ++ (']' :: rest))) =
        jsonStringifyA (JArr.cons w a) ++ (']' :: rest) := by
      rw [jsonStringifyA_cons, hw]
      simp
    rw [hre, harr]
    rfl
  | JValue.obj JObj.nil, fuel + 1, rest, _, _ => by
    simp [jsonStringifyV, jsonStringifyO, parseJ, lbraceC, rbraceC]
  | JValue.obj (JObj.cons k v o), fuel + 1, rest, hf, _ => by
    have hsz : sizeO (JObj.cons k v o) ≤ fuel := by
      simp [sizeV] at hf; omega
    have hobj := parseObjMembers_stringifyO (JObj.cons k v o) (by simp) fuel
      rest hsz
    have hexp : jsonStringifyV (JValue.obj (JObj.cons k v o)) ++ rest =
        lbraceC :: (jsonStringifyO (JObj.cons k v o) ++ (rbraceC :: rest)) := by
      simp [jsonStringifyV]
    rw [hexp, jsonStringifyO_cons]
    simp only [quoteChars, List.cons_append, List.append_assoc,
      List.nil_append]
    simp only [parseJ]
    rw [if_neg (by decide), if_neg (by decide), if_neg (by decide),
      if_neg (by decide), if_neg (by decide), if_neg (by decide),
      if_pos trivial]
    rw [if_neg (by decide)]
    have hre : '"' :: (escapeList k.data ++
          ('"' :: (':' :: (jsonStringifyV v ++
            (jsonObjTail o ++ (rbraceC :: rest)))))) =
        jsonStringifyO (JObj.cons k v o) ++ (rbraceC :: rest) := by
      rw [jsonStringifyO_cons]
      simp [quoteChars]
    rw [hre, hobj]
    rfl

theorem parseArrElems_stringifyA : ∀ (a : JArr), a ≠ JArr.nil →
    ∀ (fuel : Nat) (rest : List Char), sizeA a ≤ fuel →
    parseArrElems fuel (jsonStringifyA a ++ ']' :: rest) = some (a, rest)
  | JArr.nil, h, _, _, _ => absurd rfl h
  | JArr.cons v a, _, 0, _, hsz => by
    have := sizeV_pos v
    simp [sizeA] at hsz
  | JArr.cons v JArr.nil, _, fuel + 1, rest, hsz => by
    have hv := parseJ_stringifyV v fuel (']' :: rest)
      (by simp [sizeA] at hsz; omega) (notDigitStart_rbrack rest)
    simp only [jsonStringifyA]
    simp only [parseArrElems]
    rw [hv]
    simp
  | JArr.cons v (JArr.cons w a), _, fuel + 1, rest, hsz => by
    have hv := parseJ_stringifyV v fuel
      (',' :: (jsonStringifyA (JArr.cons w a) ++ (']' :: rest)))
      (by simp [sizeA] at hsz; omega) (notDigitStart_comma _)
    have hrec := parseArrElems_stringifyA (JArr.cons w a) (by simp) fuel rest
      (by simp [sizeA] at hsz ⊢; omega)
    have hexp : jsonStringifyA (JArr.cons v (JArr.cons w a)) ++ ']' :: rest =
        jsonStringifyV v ++
          (',' :: (jsonStringifyA (JArr.cons w a) ++ (']' :: rest))) := by
      simp [jsonStringifyA]
    rw [hexp]
    simp only [parseArrElems]
    rw [hv]
    simp [hrec]
theorem parseObjMembers_stringifyO : ∀ (o : JObj), o ≠ JObj.nil →
    ∀ (fuel : Nat) (rest : List Char), sizeO o ≤ fuel →
    parseObjMembers fuel (jsonStringifyO o ++ rbraceC :: rest) =
      some (o, rest)
  | JObj.nil, h, _, _, _ => absurd rfl h
  | JObj.cons k v o, _, 0, _, hsz => by
    have := sizeV_pos v
    simp [sizeO] at hsz
  | JObj.cons k v JObj.nil, _, fuel + 1, rest, hsz => by
    have hk := parseStringBody_escapeList k.data fuel
      (':' :: (jsonStringifyV v ++ (rbraceC :: rest)))
      (by have hkd : k.length = k.data.length := rfl
          simp [sizeO] at hsz
          omega)
    have hv := parseJ_stringifyV v fuel (rbraceC :: rest)
      (by simp [sizeO] at hsz; omega) (notDigitStart_rbrace rest)
    have hexp : jsonStringifyO (JObj.cons k v JObj.nil) ++ rbraceC :: rest =
        '"' :: (escapeList k.data ++
          ('"' :: (':' :: (jsonStringifyV v ++ (rbraceC :: rest))))) := by
      simp [jsonStringifyO, quoteChars]
    rw [hexp]
    simp only [parseObjMembers]
    simp [hk, hv, stringMk_data]
  | JObj.cons k v (JObj.cons k2 v2 o), _, fuel + 1, rest, hsz => by
    have hk := parseStringBody_escapeList k.data fuel
      (':' :: (jsonStringifyV v ++
        (',' :: (jsonStringifyO (JObj.cons k2 v2 o) ++ (rbraceC :: rest)))))
      (by have hkd : k.length = k.data.length := rfl
          simp [sizeO] at hsz
          omega)
    have hv := parseJ_stringifyV v fuel
      (',' :: (jsonStringifyO (JObj.cons k2 v2 o) ++ (rbraceC :: rest)))
      (by simp [sizeO] at hsz; omega) (notDigitStart_comma _)
    have hrec := parseObjMembers_stringifyO (JObj.cons k2 v2 o) (by simp)
      fuel rest (by simp [sizeO] at hsz ⊢; omega)
    have hexp : jsonStringifyO (JObj.cons k v (JObj.cons k2 v2 o)) ++
          rbraceC :: rest =
        '"' :: (escapeList k.data ++
          ('"' :: (':' :: (jsonStringifyV v ++
            (',' :: (jsonStringifyO (JObj.cons k2 v2 o) ++
              (rbraceC :: rest))))))) := by
      simp [jsonStringifyO, quoteChars]
    rw [hexp]
    simp only [parseObjMembers]
    simp [hk, hv, hrec, stringMk_data,
      show ¬(',' = rbraceC) from by decide]
end

mutual
theorem sizeV_le_length : ∀ (v : JValue),
    sizeV v ≤ (jsonStringifyV v).length
  | JValue.null => by simp [sizeV, jsonStringifyV]
  | JValue.bool true => by simp [sizeV, jsonStringifyV]
  | JValue.bool false => by simp [sizeV, jsonStringifyV]
  | JValue.num m => by
    simp only [sizeV, jsonStringifyV, intChars]
    split
    · simp [natChars_length_pos]
    · have := natChars_length_pos m.toNat
      omega
  | JValue.str s => by
    have := escapeList_length s.data
    simp only [sizeV, jsonStringifyV, quoteChars]
    simp only [List.length_cons, List.length_append, List.length_singleton]
    omega
  | JValue.arr a => by
    have := sizeA_le_length a
    simp only [sizeV, jsonStringifyV]
    simp only [List.length_cons, List.length_append, List.length_singleton]
    omega
  | JValue.obj o => by
    have := sizeO_le_length o
    simp only [sizeV, jsonStringifyV]
    simp only [List.length_cons, List.length_append, List.length_singleton]
    omega
theorem sizeA_le_length : ∀ (a : JArr),
    sizeA a ≤ (jsonStringifyA a).length + 1
  | JArr.nil => by simp [sizeA, jsonStringifyA]
  | JArr.cons v JArr.nil => by
    have := sizeV_le_length v
    simp only [sizeA, jsonStringifyA]
    omega
  | JArr.cons v (JArr.cons w a) => by
    have h1 := sizeV_le_length v
    have h2 := sizeA_le_length (JArr.cons w a)
    simp only [sizeA, jsonStringifyA] at h2 ⊢
    simp only [List.length_append, List.length_cons]
    omega
theorem sizeO_le_length : ∀ (o : JObj),
    sizeO o ≤ (jsonStringifyO o).length + 1
  | JObj.nil => by simp [sizeO, jsonStringifyO]
  | JObj.cons k v JObj.nil => by
    have h1 := sizeV_le_length v
    have h2 := escapeList_length k.data
    simp only [sizeO, sizeA, jsonStringifyO, quoteChars]
    simp only [List.length_append, List.length_cons,
      List.length_singleton]
    omega
  | JObj.cons k v (JObj.cons k2 v2 o) => by
    have h1 := sizeV_le_length v
    have h2 := escapeList_length k.data
    have h3 := sizeO_le_length (JObj.cons k2 v2 o)
    simp only [sizeO, jsonStringifyO, quoteChars] at h3 ⊢
    simp only [List.length_append, List.length_cons,
      List.length_singleton]
    omega
end

theorem jsonParse_stringify (v : JValue) :
    jsonParse (jsonStringify v) = some v := by
  unfold jsonParse jsonStringify
  have hdata : (String.mk (jsonStringifyV v)).data = jsonStringifyV v := rfl
  rw [hdata]
  have h := parseJ_stringifyV v (jsonStringifyV v).length []
    (sizeV_le_length v) rfl
  simp only [List.append_nil] at h
  rw [h]

/-- C5 counterexample: `setContent` and `_packMessageContent` do not treat
`"application/json"` as a default — a caller-supplied
`contentType = "text/plain"` is overwritten on the JSON branch, so the
claim that the caller's contentType is preserved on every path fails here
(the Exchange.publish path, by contrast, does preserve it). -/
theorem setContent_overwrites_contentType_cex :
    (setContent ⟨some "text/plain", none⟩
        (JSContent.other JValue.null)).2.contentType =
      some "application/json" ∧
    (setContent ⟨some "text/plain", none⟩
        (JSContent.other JValue.null)).2.contentType ≠ some "text/plain" ∧
    (packMessageContent (JSContent.other JValue.null)
        ⟨some "text/plain", none⟩).2.contentType = some "application/json" ∧
    (exchangePublishNormalize (JSContent.other JValue.null)
        ⟨some "text/plain", none⟩).2.contentType = some "text/plain" := by
  refine ⟨rfl, by decide, rfl, rfl⟩

/-- C5 amended: on all three encoding paths a string payload is UTF-8
encoded and a Buffer passes through verbatim, in both cases with the
caller's properties unchanged; any other value is JSON-stringified to
bytes, and `contentType` is then assigned `"application/json"` — as a
default that preserves a caller-supplied non-empty contentType only in
`Exchange.publish`; `Message.setContent` and `Queue._packMessageContent`
overwrite the caller's contentType unconditionally. -/
theorem content_encoding_rules :
    (∀ (props : MsgProps) (s : String),
      setContent props (JSContent.str s) = (utf8Encode s, props) ∧
      packMessageContent (JSContent.str s) props = (utf8Encode s, props) ∧
      exchangePublishNormalize (JSContent.str s) props =
        (utf8Encode s, props)) ∧
    (∀ (props : MsgProps) (b : List Nat),
      setContent props (JSContent.buf b) = (b, props) ∧
      packMessageContent (JSContent.buf b) props = (b, props) ∧
      exchangePublishNormalize (JSContent.buf b) props = (b, props)) ∧
    (∀ (props : MsgProps) (v : JValue),
      setContent props (JSContent.other v) =
        (utf8Encode (jsonStringify v),
          { props with contentType := some "application/json" }) ∧
      packMessageContent (JSContent.other v) props =
        (utf8Encode (jsonStringify v),
          { props with contentType := some "application/json" }) ∧
      (∀ ct : String, props.contentType = some ct → ct ≠ "" →
        exchangePublishNormalize (JSContent.other v) props =
          (utf8Encode (jsonStringify v),
            { props with contentType := some ct })) ∧
      (props.contentType = none →
        exchangePublishNormalize (JSContent.other v) props =
          (utf8Encode (jsonStringify v),
            { props with contentType := some "application/json" }))) := by
  refine ⟨fun props s => ⟨rfl, rfl, rfl⟩, fun props b => ⟨rfl, rfl, rfl⟩,
    fun props v => ⟨rfl, rfl, ?_, ?_⟩⟩
  · intro ct hct hne
    simp [exchangePublishNormalize, jsOrDefault, hct, hne]
  · intro hct
    simp [exchangePublishNormalize, jsOrDefault, hct]

/-- C5 witness: the default is exercised at a concrete caller contentType. -/
theorem content_encoding_rules_witness :
    exchangePublishNormalize (JSContent.other JValue.null)
        ⟨some "text/xml", none⟩ =
      (utf8Encode (jsonStringify JValue.null), ⟨some "text/xml", none⟩) :=
  (content_encoding_rules.2.2 ⟨some "text/xml", none⟩ JValue.null).2.2.1
    "text/xml" rfl (by decide)

/-- C6: encode/decode round-trip.  With no contentType set, a string
payload is stored as exactly its UTF-8 bytes and decodes back to itself
(via `getContent` and via `_unpackMessageContent`); a non-string,
non-Buffer payload decodes back to a deep-equal value with the stored
contentType `"application/json"`; a Buffer payload is stored verbatim. -/
theorem content_roundtrip :
    (∀ s : String,
      (setContent ⟨none, none⟩ (JSContent.str s)).1 = utf8Encode s ∧
      getContent (setContent ⟨none, none⟩ (JSContent.str s)).1
          (setContent ⟨none, none⟩ (JSContent.str s)).2 =
        some (Decoded.str s) ∧
      unpackMessageContent
          (packMessageContent (JSContent.str s) ⟨none, none⟩).1
          (packMessageContent (JSContent.str s) ⟨none, none⟩).2 =
        some (Decoded.str s)) ∧
    (∀ (v : JValue) (props : MsgProps),
      (setContent props (JSContent.other v)).2.contentType =
        some "application/json" ∧
      getContent (setContent props (JSContent.other v)).1
          (setContent props (JSContent.other v)).2 =
        some (Decoded.json v) ∧
      unpackMessageContent
          (packMessageContent (JSContent.other v) props).1
          (packMessageContent (JSContent.other v) props).2 =
        some (Decoded.json v)) ∧
    (∀ (b : List Nat) (props : MsgProps),
      (setContent props (JSContent.buf b)).1 = b ∧
      (packMessageContent (JSContent.buf b) props).1 = b) := by
  refine ⟨fun s => ⟨rfl, ?_, ?_⟩, fun v props => ⟨rfl, ?_, ?_⟩,
    fun b props => ⟨rfl, rfl⟩⟩
  · simp [setContent, getContent, utf8_roundtrip]
  · simp [packMessageContent, unpackMessageContent, utf8_roundtrip]
  · simp [setContent, getContent, utf8_roundtrip, jsonParse_stringify]
  · simp [packMessageContent, unpackMessageContent, utf8_roundtrip,
      jsonParse_stringify]

theorem content_roundtrip_witness :
    getContent (setContent ⟨none, none⟩ (JSContent.str "hello")).1
        (setContent ⟨none, none⟩ (JSContent.str "hello")).2 =
      some (Decoded.str "hello") ∧
    getContent (setContent ⟨none, none⟩ (JSContent.other sampleJson)).1
        (setContent ⟨none, none⟩ (JSContent.other sampleJson)).2 =
      some (Decoded.json sampleJson) :=
  ⟨(content_roundtrip.1 "hello").2.1,
    (content_roundtrip.2.1 sampleJson ⟨none, none⟩).2.1⟩

/-- C8 counterexample: a delivery whose callback throws is *not* acked —
the `ack` sits after the callback inside the same `try`, so the claimed
automatic ack after each delivery (with `noAck` unset) fails here; the
exception is logged and no channel operation at all is issued. -/
theorem consumer_throw_skips_ack_cex :
    processedMsgConsumer none (fun _ => Except.error 0) msgHello =
      ([], true) ∧
    ChanOp.ack 3 none ∉
      (processedMsgConsumer none (fun _ => Except.error 0) msgHello).1 := by
  constructor
  · rfl
  · intro h
    rw [show processedMsgConsumer none (fun _ => Except.error 0) msgHello =
      ([], true) from rfl] at h
    cases h

/-- C8 amended: with `options.noAck` not `true`, a delivery is acked
automatically only when the payload decode and the consumer callback
complete without throwing (the ack following the optional reply send);
when the callback throws, the exception is caught and logged and no
channel operation is issued for that delivery — no ack, no nack and no
reject. -/
theorem consumer_ack_discipline :
    (∀ (noAck : Option Bool) (consumer : Decoded → Except Nat JSContent)
        (msg : DeliveredMsg) (payload : Decoded) (result : JSContent),
      unpackMessageContent msg.content ⟨msg.contentType, msg.replyTo⟩ =
        some payload →
      consumer payload = Except.ok result →
      ((noAck ≠ some true →
          ChanOp.ack msg.tag none ∈
            (processedMsgConsumer noAck consumer msg).1) ∧
        (noAck = some true →
          ∀ t u, ChanOp.ack t u ∉
            (processedMsgConsumer noAck consumer msg).1) ∧
        (∀ t u, ChanOp.nack t u ∉
            (processedMsgConsumer noAck consumer msg).1 ∧
          ChanOp.reject t u ∉
            (processedMsgConsumer noAck consumer msg).1) ∧
        (processedMsgConsumer noAck consumer msg).2 = false)) ∧
    (∀ (noAck : Option Bool) (consumer : Decoded → Except Nat JSContent)
        (msg : DeliveredMsg) (payload : Decoded) (e : Nat),
      unpackMessageContent msg.content ⟨msg.contentType, msg.replyTo⟩ =
        some payload →
      consumer payload = Except.error e →
      processedMsgConsumer noAck consumer msg = ([], true)) := by
  constructor
  · intro noAck consumer msg payload result hun hcb
    have hrun : processedMsgConsumer noAck consumer msg =
        ((match msg.replyTo with
          | some q =>
            [ChanOp.sendToQueue q (packMessageContent result ⟨none, none⟩).1]
          | none => []) ++
          (if noAck ≠ some true then [ChanOp.ack msg.tag none] else []),
          false) := by
      unfold processedMsgConsumer
      simp only [hun, hcb]
    refine ⟨?_, ?_, ?_, by rw [hrun]⟩
    · intro hna
      rw [hrun]
      cases msg.replyTo <;> simp [hna]
    · intro hna t u
      rw [hrun]
      cases msg.replyTo <;> simp [hna]
    · intro t u
      rw [hrun]
      cases msg.replyTo <;> constructor <;> intro hmem <;>
        exact absurd hmem (by simp)
  · intro noAck consumer msg payload e hun hcb
    unfold processedMsgConsumer
    simp only [hun, hcb]

/-- C8 witness: a concrete successful delivery is acked; the throwing case
of the same consumer options issues nothing. -/
theorem consumer_ack_discipline_witness :
    (ChanOp.ack 3 none ∈
      (processedMsgConsumer none
        (fun _ => Except.ok (JSContent.str "r")) msgHello).1) ∧
    processedMsgConsumer none (fun _ => Except.error 7) msgHello =
      ([], true) :=
  ⟨(consumer_ack_discipline.1 none (fun _ => Except.ok (JSContent.str "r"))
      msgHello (Decoded.str "hello") (JSContent.str "r") rfl rfl).1
      (by decide),
    consumer_ack_discipline.2 none (fun _ => Except.error 7) msgHello
      (Decoded.str "hello") 7 rfl rfl⟩

theorem exchangePublishRun_cycles (reg : StrMap Nat) (name rk : String)
    (id : Nat) (h : reg name = some id) (e : Nat) :
    ∀ (k : Nat) (content : JSContent) (options : MsgProps),
    exchangePublishRun reg name rk
        (List.replicate k (some e) ++ [none]) content options =
      expectedCycles name rk name
        (exchangePublishNormalize content options).1 e k := by
  intro k
  induction k with
  | zero =>
    intro content options
    simp [exchangePublishRun, expectedCycles]
  | succ n ih =>
    intro content options
    rw [List.replicate_succ, List.cons_append]
    rw [show exchangePublishRun reg name rk
        ((some e) :: (List.replicate n (some e) ++ [none])) content options =
      PubEvent.attempt name rk
          (exchangePublishNormalize content options).1 (some e) ::
        PubEvent.rebuildEv e ::
        PubEvent.lookupEv name ::
        (match reg name with
         | some _ =>
           exchangePublishRun reg name rk
             (List.replicate n (some e) ++ [none])
             (JSContent.buf (exchangePublishNormalize content options).1)
             (exchangePublishNormalize content options).2
         | none => []) from rfl]
    rw [h]
    rw [ih (JSContent.buf (exchangePublishNormalize content options).1)
      (exchangePublishNormalize content options).2]
    rfl

theorem queuePublishRun_cycles (reg : StrMap Nat) (name : String)
    (id : Nat) (h : reg name = some id) (e : Nat) :
    ∀ (k : Nat) (content : JSContent) (options : MsgProps),
    queuePublishRun reg name
        (List.replicate k (some e) ++ [none]) content options =
      expectedCycles "" name name
        (packMessageContent content options).1 e k := by
  intro k
  induction k with
  | zero =>
    intro content options
    simp [queuePublishRun, expectedCycles]
  | succ n ih =>
    intro content options
    rw [List.replicate_succ, List.cons_append]
    rw [show queuePublishRun reg name
        ((some e) :: (List.replicate n (some e) ++ [none])) content options =
      PubEvent.attempt "" name
          (packMessageContent content options).1 (some e) ::
        PubEvent.rebuildEv e ::
        PubEvent.lookupEv name ::
        (match reg name with
         | some _ =>
           queuePublishRun reg name
             (List.replicate n (some e) ++ [none])
             (JSContent.buf (packMessageContent content options).1)
             (packMessageContent content options).2
         | none => []) from rfl]
    rw [h]
    rw [ih (JSContent.buf (packMessageContent content options).1)
      (packMessageContent content options).2]
    simp [expectedCycles, packMessageContent]

theorem expectedCycles_counts (ex rk lk : String) (bytes : List Nat)
    (e : Nat) : ∀ k,
    countRebuilds (expectedCycles ex rk lk bytes e k) = k ∧
    countTraceAttempts (expectedCycles ex rk lk bytes e k) = k + 1 := by
  intro k
  induction k with
  | zero => exact ⟨rfl, rfl⟩
  | succ n ih =>
    simp [expectedCycles, countRebuilds, countTraceAttempts,
      List.countP_cons] at ih ⊢
    omega

theorem exchangePublishRun_allfail (reg : StrMap Nat) (name rk : String)
    (id : Nat) (h : reg name = some id) (e : Nat) :
    ∀ (n : Nat) (content : JSContent) (options : MsgProps),
    countRebuilds (exchangePublishRun reg name rk
        (List.replicate n (some e)) content options) = n ∧
    countTraceAttempts (exchangePublishRun reg name rk
        (List.replicate n (some e)) content options) = n := by
  intro n
  induction n with
  | zero => intro content options; exact ⟨rfl, rfl⟩
  | succ m ih =>
    intro content options
    rw [List.replicate_succ]
    rw [show exchangePublishRun reg name rk
        ((some e) :: List.replicate m (some e)) content options =
      PubEvent.attempt name rk
          (exchangePublishNormalize content options).1 (some e) ::
        PubEvent.rebuildEv e ::
        PubEvent.lookupEv name ::
        (match reg name with
         | some _ =>
           exchangePublishRun reg name rk (List.replicate m (some e))
             (JSContent.buf (exchangePublishNormalize content options).1)
             (exchangePublishNormalize content options).2
         | none => []) from rfl]
    rw [h]
    have ihm := ih (JSContent.buf (exchangePublishNormalize content options).1)
      (exchangePublishNormalize content options).2
    simp [countRebuilds, countTraceAttempts, List.countP_cons] at ihm ⊢
    omega

/-- C2: a synchronous throw of the underlying channel call triggers
exactly one `_rebuildAll` with the thrown error followed by one registry
re-lookup by name and one re-invocation of `publish` with the same
normalized content, routing key and options — so a run with `k` failing
attempts and then a success produces exactly the `k`-cycle trace, with
`k` rebuilds and `k + 1` attempts all carrying the same bytes; and the
cycling is unbounded: under `n` persistent failures the run performs `n`
rebuilds, for every `n`.  (Exchange.publish and, via `sendToQueue` on the
default exchange, Queue.publish.) -/
theorem publish_rebuild_retransmit :
    (∀ (reg : StrMap Nat) (name rk : String) (id : Nat),
      reg name = some id → ∀ (e k : Nat) (content : JSContent)
        (options : MsgProps),
      exchangePublishRun reg name rk
          (List.replicate k (some e) ++ [none]) content options =
        expectedCycles name rk name
          (exchangePublishNormalize content options).1 e k) ∧
    (∀ (reg : StrMap Nat) (name : String) (id : Nat),
      reg name = some id → ∀ (e k : Nat) (content : JSContent)
        (options : MsgProps),
      queuePublishRun reg name
          (List.replicate k (some e) ++ [none]) content options =
        expectedCycles "" name name
          (packMessageContent content options).1 e k) ∧
    (∀ (ex rk lk : String) (bytes : List Nat) (e k : Nat),
      countRebuilds (expectedCycles ex rk lk bytes e k) = k ∧
      countTraceAttempts (expectedCycles ex rk lk bytes e k) = k + 1) ∧
    (∀ (reg : StrMap Nat) (name rk : String) (id : Nat),
      reg name = some id → ∀ (e n : Nat) (content : JSContent)
        (options : MsgProps),
      countRebuilds (exchangePublishRun reg name rk
          (List.replicate n (some e)) content options) = n) := by
  refine ⟨?_, ?_, ?_, ?_⟩
  · intro reg name rk id h e k content options
    exact exchangePublishRun_cycles reg name rk id h e k content options
  · intro reg name id h e k content options
    exact queuePublishRun_cycles reg name id h e k content options
  · intro ex rk lk bytes e k
    exact expectedCycles_counts ex rk lk bytes e k
  · intro reg name rk id h e n content options
    exact (exchangePublishRun_allfail reg name rk id h e n content
      options).1

/-- C2 witness: two failures then success on a registered exchange give
the two-cycle trace; three persistent failures give three rebuilds. -/
theorem publish_rebuild_retransmit_witness :
    exchangePublishRun (StrMap.emptyS.insertS "e" 0) "e" "k"
        (List.replicate 2 (some 9) ++ [none])
        (JSContent.str "hi") ⟨none, none⟩ =
      expectedCycles "e" "k" "e"
        (exchangePublishNormalize (JSContent.str "hi") ⟨none, none⟩).1 9 2 ∧
    countRebuilds (exchangePublishRun (StrMap.emptyS.insertS "e" 0) "e" "k"
        (List.replicate 3 (some 9)) (JSContent.str "hi") ⟨none, none⟩) =
      3 :=
  ⟨publish_rebuild_retransmit.1 (StrMap.emptyS.insertS "e" 0) "e" "k" 0
      (by simp [StrMap.insertS]) 9 2 (JSContent.str "hi") ⟨none, none⟩,
    publish_rebuild_retransmit.2.2.2 (StrMap.emptyS.insertS "e" 0) "e" "k" 0
      (by simp [StrMap.insertS]) 9 3 (JSContent.str "hi") ⟨none, none⟩⟩

/-- C9 counterexample: `Exchange.rpc` on an exchange whose `initialized`
future is still pending performs its `channel.consume` immediately — a
channel operation before the entity's `initialized` future has resolved,
contradicting the claimed gating of every send/consume-path operation. -/
theorem exchangeRpc_not_gated_cex :
    (exchangeRpcOps false).1 = [ChanOp.consume directReplyTo] ∧
    (exchangeRpcOps false).1 ≠ [] := by
  exact ⟨rfl, by decide⟩

/-- C9 amended: `Queue.publish`, `Queue.rpc` and `Message.sendTo` run
their channel operation synchronously when `initialized` is already
fulfilled and otherwise defer it behind the future (no operation before
resolution); `Exchange.publish` always defers behind the future; but
`Exchange.rpc` issues its `channel.consume` on the direct reply-to queue
immediately, whether or not `initialized` has resolved — only the
subsequent request publish is gated. -/
theorem send_ops_gated_on_initialized :
    (∀ (name : String) (bytes : List Nat),
      queuePublishOps true name bytes = ([ChanOp.sendToQueue name bytes], []) ∧
      queuePublishOps false name bytes =
        ([], [ChanOp.sendToQueue name bytes])) ∧
    (queueRpcOps true = ([ChanOp.consume directReplyTo], []) ∧
      queueRpcOps false = ([], [ChanOp.consume directReplyTo])) ∧
    (∀ (ex rk : String) (bytes : List Nat),
      messageSendToOps true ex rk bytes = ([ChanOp.publish ex rk bytes], []) ∧
      messageSendToOps false ex rk bytes =
        ([], [ChanOp.publish ex rk bytes])) ∧
    (∀ (fulfilled : Bool) (name rk : String) (bytes : List Nat),
      (exchangePublishOps fulfilled name rk bytes).1 = []) ∧
    (∀ fulfilled : Bool,
      (exchangeRpcOps fulfilled).1 = [ChanOp.consume directReplyTo]) := by
  exact ⟨fun name bytes => ⟨rfl, rfl⟩, ⟨rfl, rfl⟩,
    fun ex rk bytes => ⟨rfl, rfl⟩, fun fulfilled name rk bytes => rfl,
    fun fulfilled => rfl⟩
